import Mathlib

/-!
# Transactional dispatch and SMTP routing of listmonk: a shallow embedding

The development follows three source files:

* `internal/messenger/email/email.go` : `Server.allowsFromAddress`, `New`,
  `applicableServers`, `Emailer.Push`;
* `cmd/txSync.go` : `handleSendTxMessageSync`, `validateTxMessageSync`;
* `cmd/tx.go` : `handleSendTxMessage`, `validateTxMessage`.

Conventions of the embedding.

* A Go `string` and a Go `[]byte` are a Lean `String`.
* A run-time panic (index out of range, nil dereference) is the value `none`
  of an outer `Option`.
* A Go `map` is the list of its entries in the order in which a `range`
  statement visits them; theorems quantify over every such list, hence over
  every iteration order.
* Functions of the Go standard library and of packages outside the three
  files (`mail.ParseAddress`, `rand.Intn`, `smtppool.New` and the connection
  pool, the template and subscriber stores) are parameters.
-/

namespace Listmonk

/-! ## Go standard library: `strings.Split` with a one-character separator -/

/-- Pieces of a character list between the occurrences of `sep`, as
`strings.Split` cuts them: `n` occurrences give `n + 1` pieces. -/
def splitChars (sep : Char) : List Char → List (List Char)
  | [] => [[]]
  | c :: cs =>
    if c = sep then [] :: splitChars sep cs
    else
      match splitChars sep cs with
      | [] => [[c]]
      | p :: ps => (c :: p) :: ps

/-- Go `strings.Split(s, sep)` for a separator of one character. -/
def stringsSplit (s : String) (sep : Char) : List String :=
  (splitChars sep s.data).map String.mk

/-! ## Errors -/

/-- Go `error` values met by the pipeline. Two errors are equal when they are
the same value; `Error` gives the text. -/
inductive GoError where
  /-- An `*echo.HTTPError` with its status code and message. -/
  | http (code : Nat) (message : String)
  /-- The package variable `email.ErrEmailNoSMTPServerForFrom`. -/
  | emailNoSMTPServerForFrom
  /-- The package variable `email.ErrEmailInvalidFromAddress`. -/
  | emailInvalidFromAddress
  /-- Any other error value: `id` tells two values apart, `text` is what its
  `Error` method returns. -/
  | other (id : Nat) (text : String)
  /-- An error value that wraps another one (its `Unwrap` gives `inner`). -/
  | wrapped (text : String) (inner : GoError)
  deriving DecidableEq, Repr

/-- The method `Error` of an error value. The two package variables of
`email.go` carry the texts given to `errors.New`; an `*echo.HTTPError` prints
its code and message. -/
def GoError.Error : GoError → String
  | .http code message => "code=" ++ toString code ++ ", message=" ++ message
  | .emailNoSMTPServerForFrom => "no applicable SMTP server for FROM address"
  | .emailInvalidFromAddress => "invalid FROM email address"
  | .other _ text => text
  | .wrapped text _ => text

/-- Go `errors.As(err, &httpErr)` for a target of type `*echo.HTTPError`: the
first HTTP error on the unwrap chain, if there is one. -/
def errorsAsHTTP : GoError → Option (Nat × String)
  | .http code message => some (code, message)
  | .wrapped _ inner => errorsAsHTTP inner
  | _ => none

/-- Go `errors.Is(err, target)`: some error on the unwrap chain is `target`. -/
def errorsIs : GoError → GoError → Bool
  | .wrapped text inner, target =>
    decide (GoError.wrapped text inner = target) || errorsIs inner target
  | err, target => decide (err = target)

/-- The `email.ErrEmailNoSMTPServerForFrom` value. -/
abbrev ErrEmailNoSMTPServerForFrom : GoError := GoError.emailNoSMTPServerForFrom

/-- The `email.ErrEmailInvalidFromAddress` value. -/
abbrev ErrEmailInvalidFromAddress : GoError := GoError.emailInvalidFromAddress

/-! ## `email.go`: servers -/

/-- The `smtp.Auth` mechanisms that `New` can install. -/
inductive SMTPAuth where
  | cramMD5 (username secret : String)
  | plain (identity username password host : String)
  | login (username password : String)
  deriving DecidableEq, Repr

/-- The two fields of `tls.Config` that `New` writes. -/
structure TLSConfig where
  InsecureSkipVerify : Bool := false
  ServerName : String := ""
  deriving DecidableEq, Repr

/-- The fields of `smtppool.Opt` that `email.go` reads or writes. -/
structure Opt where
  Host : String := ""
  Port : Nat := 0
  SSL : Bool := false
  Auth : Option SMTPAuth := none
  TLSConfig : Option TLSConfig := none
  deriving DecidableEq, Repr

/-- The `Server` struct: an SMTP server's credentials. `EmailHeaders` is the
map `map[string]string` in iteration order. -/
structure Server where
  Username : String := ""
  Password : String := ""
  AuthProtocol : String := ""
  TLSType : String := ""
  TLSSkipVerify : Bool := false
  EmailHeaders : List (String × String) := []
  AllowedFromAddresses : List String := []
  Opt : Opt := {}
  deriving DecidableEq, Repr

/-- The loop of `allowsFromAddress` over the allow-list. -/
def allowedLoop (emailAddress domain : String) : List String → Bool
  | [] => false
  | allowed :: rest =>
    if emailAddress = allowed ∨ domain = allowed then true
    else allowedLoop emailAddress domain rest

/-- The method `Server.allowsFromAddress`. The index expression
`strings.Split(emailAddress, "@")[1]` panics when the split has fewer than two
pieces; that is the result `none`. -/
def Server.allowsFromAddress (s : Server) (emailAddress : String) : Option Bool :=
  if s.AllowedFromAddresses.length = 0 then some true
  else
    match (stringsSplit emailAddress '@').get? 1 with
    | none => none
    | some domain => some (allowedLoop emailAddress domain s.AllowedFromAddresses)

/-! ## Go standard library: `net/textproto` -/

/-- Go `validHeaderFieldByte`: the token characters of RFC 7230, that is the
ASCII letters and digits and the characters of `!#$%&'*+-.^_|~` and the
backquote, listed by code. -/
def validHeaderFieldByte (c : Char) : Bool :=
  c.isAlphanum || [33, 35, 36, 37, 38, 39, 42, 43, 45, 46, 94, 95, 96, 124, 126].contains c.toNat

/-- The rewriting loop of Go `canonicalMIMEHeaderKey`: upper case for the
first letter and for a letter after a hyphen, lower case for the others. -/
def canonicalChars : Bool → List Char → List Char
  | _, [] => []
  | upper, c :: cs =>
    let c1 := if upper && c.isLower then c.toUpper
              else if !upper && c.isUpper then c.toLower else c
    c1 :: canonicalChars (c1 == '-') cs

/-- Go `textproto.CanonicalMIMEHeaderKey`: a key with a space or another
invalid header byte is returned without modification. -/
def CanonicalMIMEHeaderKey (s : String) : String :=
  if s.data.all validHeaderFieldByte then String.mk (canonicalChars true s.data) else s

/-- Read of a Go map: `m[k]` with its presence flag. -/
def mapGet {κ ν : Type} [DecidableEq κ] (m : List (κ × ν)) (k : κ) : Option ν :=
  match m with
  | [] => none
  | (k1, v1) :: rest => if k1 = k then some v1 else mapGet rest k

/-- Write of a Go map: `m[k] = v`. -/
def mapSet {κ ν : Type} [DecidableEq κ] (m : List (κ × ν)) (k : κ) (v : ν) :
    List (κ × ν) :=
  match m with
  | [] => [(k, v)]
  | (k1, v1) :: rest => if k1 = k then (k, v) :: rest else (k1, v1) :: mapSet rest k v

/-- Go `delete(m, k)`. -/
def mapDel {κ ν : Type} [DecidableEq κ] (m : List (κ × ν)) (k : κ) : List (κ × ν) :=
  match m with
  | [] => []
  | (k1, v1) :: rest => if k1 = k then mapDel rest k else (k1, v1) :: mapDel rest k

/-- Go `textproto.MIMEHeader`, a `map[string][]string`. -/
abbrev MIMEHeader := List (String × List String)

/-- Go `MIMEHeader.Set`: replaces the values under the canonical key by the
single value given. -/
def MIMEHeader.Set (h : MIMEHeader) (key value : String) : MIMEHeader :=
  mapSet h (CanonicalMIMEHeaderKey key) [value]

/-- Go `MIMEHeader.Add`: appends the value to those under the canonical key. -/
def MIMEHeader.Add (h : MIMEHeader) (key value : String) : MIMEHeader :=
  mapSet h (CanonicalMIMEHeaderKey key)
    (((mapGet h (CanonicalMIMEHeaderKey key)).getD []) ++ [value])

/-- Go `MIMEHeader.Get`: the first value under the canonical key, or `""`. -/
def MIMEHeader.Get (h : MIMEHeader) (key : String) : String :=
  match mapGet h (CanonicalMIMEHeaderKey key) with
  | some (v :: _) => v
  | _ => ""

/-- Go `MIMEHeader.Del`. -/
def MIMEHeader.Del (h : MIMEHeader) (key : String) : MIMEHeader :=
  mapDel h (CanonicalMIMEHeaderKey key)

/-! ## `email.go`: messages and the wire email -/

/-- The constant `hdrReturnPath`. -/
def hdrReturnPath : String := "Return-Path"

/-- The constant `emName`. -/
def emName : String := "email"

/-- Go `mail.Address`, the result of `mail.ParseAddress`. -/
structure MailAddress where
  Name : String := ""
  Address : String := ""
  deriving DecidableEq, Repr

/-- The fields of `models.Subscriber` that the pipeline touches. -/
structure Subscriber where
  ID : Int := 0
  UUID : String := ""
  Email : String := ""
  Name : String := ""
  deriving DecidableEq, Repr

/-- The struct `messenger.Attachment`; `smtppool.Attachment` has the same
three fields under the names `Filename`, `Header`, `Content`. -/
structure Attachment where
  Name : String := ""
  Header : MIMEHeader := []
  Content : String := ""
  deriving DecidableEq, Repr

/-- The struct `messenger.Message`. `Headers` is the map in iteration order. -/
structure Message where
  From : String := ""
  To : List String := []
  Subject : String := ""
  ContentType : String := ""
  Body : String := ""
  AltBody : String := ""
  Headers : MIMEHeader := []
  Attachments : List Attachment := []
  Subscriber : Subscriber := {}
  deriving DecidableEq, Repr

/-- The fields of `smtppool.Email` that `Push` fills. -/
structure Email where
  From : String := ""
  To : List String := []
  Sender : String := ""
  Subject : String := ""
  Text : String := ""
  HTML : String := ""
  Headers : MIMEHeader := []
  Attachments : List Attachment := []
  deriving DecidableEq, Repr

/-- The struct `Emailer`. -/
structure Emailer where
  servers : List Server := []
  deriving DecidableEq, Repr

/-- The method `Emailer.Name`. -/
def Emailer.Name (_e : Emailer) : String := emName

/-- The loop of `applicableServers` (lines 125 to 129), with the slice being
appended to as accumulator. -/
def applicableLoop (address : String) : List Server → List Server → Option (List Server)
  | [], applServers => some applServers
  | smtpServer :: rest, applServers =>
    match smtpServer.allowsFromAddress address with
    | none => none
    | some true => applicableLoop address rest (applServers ++ [smtpServer])
    | some false => applicableLoop address rest applServers

/-- The function `applicableServers`. `ParseAddress` stands for
`mail.ParseAddress`, with `none` for a parse error. The result is the pair
`(applServers, err)` that the Go function returns. -/
def applicableServers (ParseAddress : String → Option MailAddress)
    (servers : List Server) (fromAddress : String) :
    Option (List Server × Option GoError) :=
  match ParseAddress fromAddress with
  | none => some ([], some ErrEmailInvalidFromAddress)
  | some parsedFromAddress =>
    match applicableLoop parsedFromAddress.Address servers [] with
    | none => none
    | some applServers => some (applServers, none)

/-- Lines 178 to 180 of `Push`: the loop over the server's static headers. -/
def attachServerHeaders (h : MIMEHeader) : List (String × String) → MIMEHeader
  | [] => h
  | (k, v) :: rest => attachServerHeaders (h.Set k v) rest

/-- Lines 183 to 185 of `Push`: the loop over the message's headers. The
index expression `v[0]` panics on an empty value list. -/
def attachMessageHeaders (h : MIMEHeader) : MIMEHeader → Option MIMEHeader
  | [] => some h
  | (k, v) :: rest =>
    match v with
    | [] => none
    | v0 :: _ => attachMessageHeaders (h.Set k v0) rest

/-- Lines 153 to 202 of `Push`: the email built for the selected server. -/
def assembleEmail (srv : Server) (m : Message) : Option Email :=
  let files : List Attachment :=
    m.Attachments.map (fun f => { Name := f.Name, Header := f.Header, Content := f.Content })
  let em : Email := { From := m.From, To := m.To, Subject := m.Subject, Attachments := files }
  match attachMessageHeaders (attachServerHeaders [] srv.EmailHeaders) m.Headers with
  | none => none
  | some headers =>
    let em : Email := { em with Headers := headers }
    let sender := em.Headers.Get hdrReturnPath
    let em : Email :=
      if sender ≠ "" then { em with Sender := sender, Headers := em.Headers.Del hdrReturnPath }
      else em
    if m.ContentType = "plain" then some { em with Text := m.Body }
    else
      let em : Email := { em with HTML := m.Body }
      if m.AltBody.length > 0 then some { em with Text := m.AltBody } else some em

/-- What `Push` did before it returned, in order. -/
inductive PushEvent where
  /-- A server was picked among the candidates. -/
  | selected (srv : Server)
  /-- The email was built. -/
  | assembled (em : Email)
  /-- The email went to the pool of the server: `srv.pool.Send(em)`. -/
  | handed (srv : Server) (em : Email)
  deriving DecidableEq, Repr

/-- The error returned by `Push` and what it did. -/
structure PushResult where
  err : Option GoError
  trace : List PushEvent
  deriving DecidableEq, Repr

/-- The method `Emailer.Push`. `Intn` stands for `rand.Intn` and `Send` for
the `Send` method of the pool of a server. -/
def Emailer.Push (ParseAddress : String → Option MailAddress) (Intn : Nat → Nat)
    (Send : Server → Email → Option GoError) (e : Emailer) (m : Message) :
    Option PushResult :=
  match applicableServers ParseAddress e.servers m.From with
  | none => none
  | some (_, some err) => some { err := some err, trace := [] }
  | some (applicableServers, none) =>
    let ln := applicableServers.length
    if ln > 0 then
      match applicableServers.get? (Intn ln) with
      | none => none
      | some srv =>
        match assembleEmail srv m with
        | none => none
        | some em =>
          some { err := Send srv em,
                 trace := [PushEvent.selected srv, PushEvent.assembled em,
                           PushEvent.handed srv em] }
    else some { err := some ErrEmailNoSMTPServerForFrom, trace := [] }

/-- A stand-in for `mail.ParseAddress` at concrete inputs: it accepts the bare
form `local@domain` with one `@`, no space, and both parts non-empty. -/
def parseBareAddress (s : String) : Option MailAddress :=
  match splitChars '@' s.data with
  | [l, d] =>
    if l ≠ [] ∧ d ≠ [] ∧ ¬ (' ' ∈ s.data) then some { Name := "", Address := s } else none
  | _ => none

/-! ## `email.go`: construction of the emailer -/

/-- The error of `fmt.Errorf("unknown SMTP auth type '%s'", s.AuthProtocol)`;
the quote character is given by its code 39. -/
def unknownAuthError (authProtocol : String) : GoError :=
  GoError.other 0
    ("unknown SMTP auth type " ++ String.singleton (Char.ofNat 39) ++ authProtocol
      ++ String.singleton (Char.ofNat 39))

/-- The `switch` on `s.AuthProtocol` in `New` (lines 73 to 84): the value of
`auth`, or the error with which `New` returns. -/
def resolveAuth (s : Server) : Except GoError (Option SMTPAuth) :=
  if s.AuthProtocol = "cram" then .ok (some (SMTPAuth.cramMD5 s.Username s.Password))
  else if s.AuthProtocol = "plain" then
    .ok (some (SMTPAuth.plain "" s.Username s.Password s.Opt.Host))
  else if s.AuthProtocol = "login" then .ok (some (SMTPAuth.login s.Username s.Password))
  else if s.AuthProtocol = "" ∨ s.AuthProtocol = "none" then .ok none
  else .error (unknownAuthError s.AuthProtocol)

/-- The TLS block of `New` (lines 87 to 100) on the server copy `s`. -/
def resolveTLS (s : Server) : Server :=
  if s.TLSType ≠ "none" then
    let cfg : TLSConfig :=
      if s.TLSSkipVerify then { InsecureSkipVerify := s.TLSSkipVerify }
      else { ServerName := s.Opt.Host }
    let s : Server := { s with Opt := { s.Opt with TLSConfig := some cfg } }
    if s.TLSType = "TLS" then { s with Opt := { s.Opt with SSL := true } } else s
  else s

/-- The copy `s` of a server after the auth switch and the TLS block of `New`
(lines 72 to 100), or the error of the switch. -/
def configureServer (srv : Server) : Except GoError Server :=
  match resolveAuth srv with
  | .error err => .error err
  | .ok auth => .ok (resolveTLS { srv with Opt := { srv.Opt with Auth := auth } })

/-- The loop of `New` over the servers, with `e.servers` as accumulator.
`NewPool` stands for `smtppool.New`, with `some err` for its error. The
result is the pair `(*Emailer, error)`. -/
def newLoop (NewPool : Opt → Option GoError) :
    List Server → List Server → Option Emailer × Option GoError
  | [], acc => (some { servers := acc }, none)
  | srv :: rest, acc =>
    match configureServer srv with
    | .error err => (none, some err)
    | .ok s =>
      match NewPool s.Opt with
      | some err => (none, some err)
      | none => newLoop NewPool rest (acc ++ [s])

/-- The function `New`. -/
def New (NewPool : Opt → Option GoError) (servers : List Server) :
    Option Emailer × Option GoError :=
  newLoop NewPool servers []

/-! ## Concrete servers and messages -/

/-- Server A of scenario C: it allows the domain `a.com` only. -/
def serverA : Server := { Username := "A", AllowedFromAddresses := ["a.com"] }

/-- Server B of scenario C: it allows every sender. -/
def serverB : Server := { Username := "B" }

/-- A server with two static headers, one of them a Return-Path in lower case. -/
def taggedServer : Server :=
  { EmailHeaders := [("return-path", "bounce@a.com"), ("X-Tag", "server")] }

/-- A message that sets `X-Tag` with two values and has an alternate body. -/
def taggedMessage : Message :=
  { From := "u@a.com", To := ["s@b.org"], Subject := "hello", ContentType := "html",
    Body := "<p>hi</p>", AltBody := "hi", Headers := [("X-Tag", ["m1", "m2"])] }

/-- The email that `Push` builds from `taggedMessage` on `taggedServer`. -/
def taggedEmail : Email :=
  { From := "u@a.com", To := ["s@b.org"], Sender := "bounce@a.com", Subject := "hello",
    Text := "hi", HTML := "<p>hi</p>", Headers := [("X-Tag", ["m1"])] }

/-- A message whose Return-Path header has an empty value. -/
def emptyReturnPathMessage : Message :=
  { From := "u@a.com", To := ["s@b.org"], Headers := [("Return-Path", [""])] }

/-- The email that `Push` builds from `emptyReturnPathMessage` on `serverB`. -/
def emptyReturnPathEmail : Email :=
  { From := "u@a.com", To := ["s@b.org"], Headers := [("Return-Path", [""])] }

/-- A server configured for implicit TLS without certificate verification. -/
def tlsServer : Server :=
  { Username := "u", Password := "p", AuthProtocol := "cram", TLSType := "TLS",
    TLSSkipVerify := true, Opt := { Host := "smtp.a.com", Port := 465 } }

/-- The server that `New` makes of `tlsServer`. -/
def tlsServerConfigured : Server :=
  { tlsServer with
    Opt := { Host := "smtp.a.com", Port := 465, SSL := true,
             Auth := some (SMTPAuth.cramMD5 "u" "p"),
             TLSConfig := some { InsecureSkipVerify := true } } }

/-- A server whose TLS type is written in lower case. -/
def lowerCaseTLSServer : Server :=
  { TLSType := "tls", Opt := { Host := "smtp.a.com", Port := 465 } }

/-! ## `tx.go` and `txSync.go`: the dispatch handlers -/

/-- Go `null.Time`, the type of `Template.UpdatedAt`. -/
structure NullTime where
  Time : Int := 0
  Valid : Bool := false
  deriving DecidableEq, Repr

/-- The fields of `models.Template` that the handlers touch; `Tpl` is the
compiled artifact. -/
structure Template where
  ID : Int := 0
  UpdatedAt : NullTime := {}
  Subject : String := ""
  Body : String := ""
  Tpl : Option String := none
  deriving DecidableEq, Repr

/-- The struct `models.TxMessage`; `Headers` is a `[]map[string]string`. -/
structure TxMessage where
  SubscriberEmail : String := ""
  SubscriberID : Int := 0
  TemplateID : Int := 0
  Data : List (String × String) := []
  FromEmail : String := ""
  Headers : List (List (String × String)) := []
  ContentType : String := ""
  Messenger : String := ""
  Subject : String := ""
  Body : String := ""
  deriving DecidableEq, Repr

/-- The struct `manager.Message`: a `messenger.Message` and the name of the
messenger that is to send it. -/
structure ManagerMessage extends Message where
  Messenger : String := ""
  deriving DecidableEq, Repr

/-- Modelled from the spec: the constant `emailMsgr` of package `main`, the
default messenger name "email". -/
def emailMsgr : String := "email"

/-- The template cache of `app.manager`: template id to compiled template. -/
abbrev TplCache := List (Int × Template)

/-- The collaborators that the handlers reach through `app`. A pair
`(value, error)` is the pair a Go function returns. -/
structure App where
  /-- The translation lookup `app.i18n.Ts(key, params...)`. -/
  Ts : String → List String → String
  /-- The sanitizer `app.importer.SanitizeEmail`. -/
  SanitizeEmail : String → String × Option GoError
  /-- The default sender `app.constants.FromEmail`. -/
  FromEmail : String
  /-- The registry test `app.manager.HasMessenger`. -/
  HasMessenger : String → Bool
  /-- The template store `app.core.GetTemplate(id, noBody)`. -/
  GetTemplate : Int → Bool → Template × Option GoError
  /-- The method `tpl.Compile(app.manager.GenericTemplateFuncs())`, which
  writes the compiled artifact into the template. -/
  Compile : Template → Template × Option GoError
  /-- The subscriber store `app.core.GetSubscriber(id, uuid, email)`. -/
  GetSubscriber : Int → String → String → Subscriber × Option GoError
  /-- The method `m.Render(sub, tpl)`, which writes subject and body into `m`. -/
  Render : TxMessage → Subscriber → Template → TxMessage × Option GoError
  /-- The map `app.messengers` with the `Push` method of each backend; the
  inner `none` of a `Push` is a panic. -/
  messengers : String → Option (Message → Option (Option GoError))
  /-- The queue hand-off `app.manager.PushMessage`. -/
  PushMessage : ManagerMessage → Option GoError
  /-- The package variable `manager.ErrTimeout`. -/
  ErrTimeout : GoError

/-- The function `validateTxMessageSync` of `txSync.go`. -/
def validateTxMessageSync (m : TxMessage) (app : App) : TxMessage × Option GoError :=
  if m.SubscriberEmail = "" ∧ m.SubscriberID = 0 then
    (m, some (GoError.http 400
      (app.Ts "globals.messages.missingFields" ["name", "subscriber_email or subscriber_id"])))
  else
    let r : TxMessage × Option GoError :=
      if m.SubscriberEmail ≠ "" then
        match app.SanitizeEmail m.SubscriberEmail with
        | (_, some err) => (m, some (GoError.http 400 err.Error))
        | (em, none) => ({ m with SubscriberEmail := em }, none)
      else (m, none)
    match r with
    | (m, some err) => (m, some err)
    | (m, none) =>
      let m : TxMessage := if m.FromEmail = "" then { m with FromEmail := app.FromEmail } else m
      if m.Messenger = "" then ({ m with Messenger := emailMsgr }, none)
      else if ¬ app.HasMessenger m.Messenger then
        (m, some (GoError.http 400 (app.Ts "campaigns.fieldInvalidMessenger" ["name", m.Messenger])))
      else (m, none)

/-- The function `validateTxMessage` of `tx.go`. -/
def validateTxMessage (m : TxMessage) (app : App) : TxMessage × Option GoError :=
  if m.SubscriberEmail = "" ∧ m.SubscriberID = 0 then
    (m, some (GoError.http 400
      (app.Ts "globals.messages.missingFields" ["name", "subscriber_email or subscriber_id"])))
  else
    let r : TxMessage × Option GoError :=
      if m.SubscriberEmail ≠ "" then
        match app.SanitizeEmail m.SubscriberEmail with
        | (_, some err) => (m, some (GoError.http 400 err.Error))
        | (em, none) => ({ m with SubscriberEmail := em }, none)
      else (m, none)
    match r with
    | (m, some err) => (m, some err)
    | (m, none) =>
      let m : TxMessage := if m.FromEmail = "" then { m with FromEmail := app.FromEmail } else m
      if m.Messenger = "" then ({ m with Messenger := emailMsgr }, none)
      else if ¬ app.HasMessenger m.Messenger then
        (m, some (GoError.http 400 (app.Ts "campaigns.fieldInvalidMessenger" ["name", m.Messenger])))
      else (m, none)

/-- A call that a handler made on a collaborator, with what it passed. -/
inductive Step where
  | getTemplate (id : Int) (noBody : Bool)
  | getTpl (id : Int)
  | compile (tpl : Template)
  | cacheTpl (id : Int) (tpl : Template)
  | getSubscriber (id : Int) (uuid email : String)
  | render (sub : Subscriber) (tpl : Template)
  | push (messenger : String) (msg : Message) (res : Option GoError)
  | pushMessage (msg : ManagerMessage) (res : Option GoError)
  | logPrintf (subject : String) (err : GoError)
  deriving DecidableEq, Repr

/-- What a handler returns: the JSON body written by `c.JSON`, or an error. -/
inductive Reply where
  | json (code : Nat) (success : Bool)
  | fail (err : GoError)
  deriving DecidableEq, Repr

/-- The reply of a handler, the template cache it leaves and its calls. -/
structure Outcome where
  reply : Reply
  cache : TplCache
  trace : List Step
  deriving DecidableEq, Repr

/-- The fetch, compile and cache write of the branch taken when the cached
template is absent or outdated (lines 41 to 53 of `txSync.go`, 40 to 52 of
`tx.go`). -/
def refreshTemplate (app : App) (cache : TplCache) (id : Int) :
    Except GoError Template × TplCache × List Step :=
  match app.GetTemplate id false with
  | (_, some err) => (.error err, cache, [Step.getTemplate id false])
  | (dbTpl, none) =>
    match app.Compile dbTpl with
    | (_, some err) =>
      (.error (GoError.http 400 err.Error), cache, [Step.getTemplate id false, Step.compile dbTpl])
    | (tpl, none) =>
      (.ok tpl, mapSet cache id tpl,
        [Step.getTemplate id false, Step.compile dbTpl, Step.cacheTpl id tpl])

/-- Template resolution (lines 32 to 54 of `txSync.go`, 31 to 53 of `tx.go`,
the same text in both). `GetTpl` fails when the cache has no entry. -/
def resolveTemplate (app : App) (cache : TplCache) (id : Int) :
    Except GoError Template × TplCache × List Step :=
  match app.GetTemplate id true with
  | (_, some err) => (.error err, cache, [Step.getTemplate id true])
  | (dbTpl, none) =>
    match mapGet cache id with
    | none =>
      let r := refreshTemplate app cache id
      (r.1, r.2.1, [Step.getTemplate id true, Step.getTpl id] ++ r.2.2)
    | some tpl =>
      if tpl.UpdatedAt ≠ dbTpl.UpdatedAt then
        let r := refreshTemplate app cache id
        (r.1, r.2.1, [Step.getTemplate id true, Step.getTpl id] ++ r.2.2)
      else (.ok tpl, cache, [Step.getTemplate id true, Step.getTpl id])

/-- Subscriber lookup (lines 56 to 65 of `txSync.go`, 55 to 64 of `tx.go`,
the same text in both). -/
def resolveSubscriber (app : App) (m : TxMessage) : Except GoError Subscriber :=
  match app.GetSubscriber m.SubscriberID "" m.SubscriberEmail with
  | (sub, none) => .ok sub
  | (sub, some err) =>
    let otherHTTP : Bool :=
      match errorsAsHTTP err with
      | some (code, _) => decide (code ≠ 400)
      | none => false
    if otherHTTP = true ∨ m.SubscriberEmail = "" then .error err
    else .ok { sub with Email := m.SubscriberEmail }

/-- The inner loop of the header block: one `map[string]string` of the
request, added pair by pair. -/
def addHeaderSet (h : MIMEHeader) : List (String × String) → MIMEHeader
  | [] => h
  | (hdr, val) :: rest => addHeaderSet (h.Add hdr val) rest

/-- The outer loop of the header block over `m.Headers`. -/
def addHeaderSets (h : MIMEHeader) : List (List (String × String)) → MIMEHeader
  | [] => h
  | set :: rest => addHeaderSets (addHeaderSet h set) rest

/-- The optional headers (lines 82 to 90 of both files): the map stays unset
when the request has no header entry. -/
def buildHeaders (m : TxMessage) : MIMEHeader :=
  if m.Headers.length ≠ 0 then addHeaderSets [] m.Headers else []

/-- The classification of a `Push` error (lines 96 to 103 of `txSync.go`). -/
def classifyPushError (err : GoError) : GoError :=
  if err.Error = "timed out waiting for free conn in pool" then GoError.http 429 err.Error
  else if err.Error = ErrEmailInvalidFromAddress.Error
      ∨ err.Error = ErrEmailNoSMTPServerForFrom.Error then GoError.http 400 err.Error
  else GoError.http 500 err.Error

/-- The handler `handleSendTxMessageSync`. `bind` is the result of
`c.Bind(&m)`. A missing entry of `app.messengers` is a nil interface, on which
the call of `Push` panics. -/
def handleSendTxMessageSync (app : App) (bind : Except GoError TxMessage) (cache : TplCache) :
    Option Outcome :=
  match bind with
  | .error err => some ⟨Reply.fail err, cache, []⟩
  | .ok m =>
  match validateTxMessageSync m app with
  | (_, some err) => some ⟨Reply.fail err, cache, []⟩
  | (m, none) =>
  match resolveTemplate app cache m.TemplateID with
  | (.error err, cache, tr) => some ⟨Reply.fail err, cache, tr⟩
  | (.ok tpl, cache, tr) =>
  let tr := tr ++ [Step.getSubscriber m.SubscriberID "" m.SubscriberEmail]
  match resolveSubscriber app m with
  | .error err => some ⟨Reply.fail err, cache, tr⟩
  | .ok sub =>
  let tr := tr ++ [Step.render sub tpl]
  match app.Render m sub tpl with
  | (_, some _) =>
    some ⟨Reply.fail (GoError.http 400 (app.Ts "globals.messages.errorFetching" ["name"])),
      cache, tr⟩
  | (m, none) =>
  let msg : Message :=
    { Subscriber := sub, To := [sub.Email], From := m.FromEmail, Subject := m.Subject,
      ContentType := m.ContentType, Body := m.Body, Headers := buildHeaders m }
  match app.messengers m.Messenger with
  | none => none
  | some push =>
    match push msg with
    | none => none
    | some none => some ⟨Reply.json 200 true, cache, tr ++ [Step.push m.Messenger msg none]⟩
    | some (some err) =>
      some ⟨Reply.fail (classifyPushError err), cache,
        tr ++ [Step.push m.Messenger msg (some err), Step.logPrintf msg.Subject err]⟩

/-- The handler `handleSendTxMessage`. `bind` is the result of `c.Bind(&m)`. -/
def handleSendTxMessage (app : App) (bind : Except GoError TxMessage) (cache : TplCache) :
    Option Outcome :=
  match bind with
  | .error err => some ⟨Reply.fail err, cache, []⟩
  | .ok m =>
  match validateTxMessage m app with
  | (_, some err) => some ⟨Reply.fail err, cache, []⟩
  | (m, none) =>
  match resolveTemplate app cache m.TemplateID with
  | (.error err, cache, tr) => some ⟨Reply.fail err, cache, tr⟩
  | (.ok tpl, cache, tr) =>
  let tr := tr ++ [Step.getSubscriber m.SubscriberID "" m.SubscriberEmail]
  match resolveSubscriber app m with
  | .error err => some ⟨Reply.fail err, cache, tr⟩
  | .ok sub =>
  let tr := tr ++ [Step.render sub tpl]
  match app.Render m sub tpl with
  | (_, some _) =>
    some ⟨Reply.fail (GoError.http 400 (app.Ts "globals.messages.errorFetching" ["name"])),
      cache, tr⟩
  | (m, none) =>
  let msg : ManagerMessage :=
    { Subscriber := sub, To := [sub.Email], From := m.FromEmail, Subject := m.Subject,
      ContentType := m.ContentType, Messenger := m.Messenger, Body := m.Body,
      Headers := buildHeaders m }
  match app.PushMessage msg with
  | some err =>
    if errorsIs err app.ErrTimeout then
      some ⟨Reply.fail (GoError.http 429 err.Error), cache,
        tr ++ [Step.pushMessage msg (some err), Step.logPrintf msg.Subject err]⟩
    else
      some ⟨Reply.fail err, cache,
        tr ++ [Step.pushMessage msg (some err), Step.logPrintf msg.Subject err]⟩
  | none => some ⟨Reply.json 200 true, cache, tr ++ [Step.pushMessage msg none]⟩

/-! ## A concrete application -/

/-- A concrete `App`. The sanitizer accepts bare addresses; the template
store holds template 3; the subscriber store holds subscriber 1 with the email
`x@y.com` and answers an unknown subscriber with an HTTP error of status 400;
the messenger `email` is an `Emailer` with server A alone, and the messenger
`busy` always reports the wait timeout of its pool. -/
def sampleApp : App :=
  { Ts := fun key params => String.join (key :: params.map (fun p => " " ++ p))
    SanitizeEmail := fun s =>
      match parseBareAddress s with
      | some a => (a.Address, none)
      | none => ("", some (GoError.other 1 "invalid email address"))
    FromEmail := "noreply@a.com"
    HasMessenger := fun name => decide (name = "email" ∨ name = "busy")
    GetTemplate := fun id noBody =>
      if id = 3 then
        ({ ID := 3, UpdatedAt := { Time := 100, Valid := true }, Subject := "Welcome",
           Body := if noBody then "" else "Hello" }, none)
      else ({}, some (GoError.http 400 "template not found"))
    Compile := fun tpl => ({ tpl with Tpl := some tpl.Body }, none)
    GetSubscriber := fun id _ email =>
      if id = 1 ∨ email = "x@y.com" then ({ ID := 1, Email := "x@y.com" }, none)
      else ({}, some (GoError.http 400 "subscriber not found"))
    Render := fun m _ tpl => ({ m with Subject := tpl.Subject, Body := tpl.Body }, none)
    messengers := fun name =>
      if name = "email" then
        some (fun msg =>
          (Emailer.Push parseBareAddress (fun _ => 0) (fun _ _ => none)
            { servers := [serverA] } msg).map PushResult.err)
      else if name = "busy" then
        some (fun _ => some (some (GoError.other 2 "timed out waiting for free conn in pool")))
      else none
    PushMessage := fun _ => none
    ErrTimeout := GoError.other 0 "message queue is full" }

/-- The application `sampleApp` with a subscriber store that is out of reach:
every lookup fails with an error that is not an HTTP error. -/
def brokenStoreApp : App :=
  { sampleApp with
    GetSubscriber := fun _ _ _ => ({}, some (GoError.other 7 "pq: connection refused")) }

/-- A request for subscriber `x@y.com` and template 3 whose From address no
server of `sampleApp` allows. -/
def foreignFromRequest : TxMessage :=
  { SubscriberEmail := "x@y.com", TemplateID := 3, FromEmail := "u@c.com" }

/-- A request by email alone, for template 3, from an allowed sender. -/
def plainRequest : TxMessage :=
  { SubscriberEmail := "new@y.com", TemplateID := 3, FromEmail := "u@a.com" }

/-- The compiled template 3 of `sampleApp`. -/
def sampleTemplate : Template :=
  { ID := 3, UpdatedAt := { Time := 100, Valid := true }, Subject := "Welcome",
    Body := "Hello", Tpl := some "Hello" }

/-- The message that the handlers build from `foreignFromRequest`. -/
def foreignFromMessage : Message :=
  { From := "u@c.com", To := ["x@y.com"], Subject := "Welcome", Body := "Hello",
    Subscriber := { ID := 1, Email := "x@y.com" } }

/-- The outcome of `handleSendTxMessageSync` on `foreignFromRequest` in
`sampleApp`, from an empty cache. -/
def foreignFromOutcome : Outcome :=
  { reply := Reply.fail (GoError.http 400 "no applicable SMTP server for FROM address"),
    cache := [(3, sampleTemplate)],
    trace := [Step.getTemplate 3 true, Step.getTpl 3, Step.getTemplate 3 false,
              Step.compile { sampleTemplate with Tpl := none }, Step.cacheTpl 3 sampleTemplate,
              Step.getSubscriber 0 "" "x@y.com",
              Step.render { ID := 1, Email := "x@y.com" } sampleTemplate,
              Step.push "email" foreignFromMessage (some ErrEmailNoSMTPServerForFrom),
              Step.logPrintf "Welcome" ErrEmailNoSMTPServerForFrom] }

/-- The outcome of `handleSendTxMessageSync` on `plainRequest` in `sampleApp`
when the cache holds the current template 3. -/
def freshOutcome : Outcome :=
  { reply := Reply.json 200 true,
    cache := [(3, sampleTemplate)],
    trace := [Step.getTemplate 3 true, Step.getTpl 3,
              Step.getSubscriber 0 "" "new@y.com",
              Step.render { Email := "new@y.com" } sampleTemplate,
              Step.push "email"
                { From := "u@a.com", To := ["new@y.com"], Subject := "Welcome", Body := "Hello",
                  Subscriber := { Email := "new@y.com" } } none] }

/-- A request that names the header `X-Tag` twice, in two letter cases. -/
def twoCaseHeadersRequest : TxMessage :=
  { SubscriberEmail := "x@y.com", TemplateID := 3, FromEmail := "u@a.com",
    Headers := [[("x-tag", "1"), ("X-Other", "o")], [("X-Tag", "2")]] }

/-- A message built by hand in which a header name has no value. -/
def emptyValueListMessage : Message :=
  { From := "u@a.com", To := ["s@b.org"], Headers := [("X-Tag", [])] }

/-! # Theorems -/

/-! ## Lemmas on splitting -/

theorem splitChars_ne_nil (sep : Char) (cs : List Char) : splitChars sep cs ≠ [] := by
  induction cs with
  | nil => simp [splitChars]
  | cons c cs ih =>
    unfold splitChars
    split
    · simp
    · split
      · simp
      · simp

theorem splitChars_not_mem (sep : Char) (cs : List Char) (h : sep ∉ cs) :
    splitChars sep cs = [cs] := by
  induction cs with
  | nil => simp [splitChars]
  | cons c cs ih =>
    have hc : c ≠ sep := fun e => h (by simp [e])
    have hcs : sep ∉ cs := fun e => h (by simp [e])
    simp [splitChars, hc, ih hcs]

theorem splitChars_append (sep : Char) (l rest : List Char) (h : sep ∉ l) :
    splitChars sep (l ++ sep :: rest) = l :: splitChars sep rest := by
  induction l with
  | nil => simp [splitChars]
  | cons c cs ih =>
    have hc : c ≠ sep := fun e => h (by simp [e])
    have hcs : sep ∉ cs := fun e => h (by simp [e])
    simp [splitChars, hc, ih hcs]

theorem stringsSplit_one_at (l d : String) (hl : '@' ∉ l.data) (hd : '@' ∉ d.data) :
    stringsSplit (l ++ "@" ++ d) '@' = [l, d] := by
  have h : (l ++ "@" ++ d).data = l.data ++ '@' :: d.data := by
    simp [String.data_append]
  simp [stringsSplit, h, splitChars_append _ _ _ hl, splitChars_not_mem _ _ hd]

theorem allowedLoop_iff (a d : String) (l : List String) :
    allowedLoop a d l = true ↔ a ∈ l ∨ d ∈ l := by
  induction l with
  | nil => simp [allowedLoop]
  | cons x xs ih =>
    unfold allowedLoop
    by_cases h : a = x ∨ d = x
    · simp only [h, if_true, true_iff]
      rcases h with h | h
      · left; simp [h]
      · right; simp [h]
    · simp only [h, if_false, ih]
      push_neg at h
      simp [h.1, h.2]

/-- C1: for an address `l@d` with no other `@`, `allowsFromAddress` returns a
boolean, and it is `true` exactly when the allow-list is empty, or holds the
whole address, or holds the text `d` after the `@`; with an empty allow-list
it is `true` for every address string. -/
theorem allowsFromAddress_single_at (s : Server) (l d : String)
    (hl : '@' ∉ l.data) (hd : '@' ∉ d.data) :
    (s.allowsFromAddress (l ++ "@" ++ d) = some true ↔
        (s.AllowedFromAddresses = [] ∨ (l ++ "@" ++ d) ∈ s.AllowedFromAddresses
          ∨ d ∈ s.AllowedFromAddresses))
      ∧ (∃ b, s.allowsFromAddress (l ++ "@" ++ d) = some b)
      ∧ (s.AllowedFromAddresses = [] → ∀ a : String, s.allowsFromAddress a = some true) := by
  refine ⟨?_, ?_, ?_⟩
  · unfold Server.allowsFromAddress
    by_cases he : s.AllowedFromAddresses = []
    · simp [he]
    · have hlen : ¬ s.AllowedFromAddresses.length = 0 := by
        simpa [List.length_eq_zero] using he
      simp only [hlen, if_false, stringsSplit_one_at l d hl hd]
      simp [allowedLoop_iff, he]
  · unfold Server.allowsFromAddress
    by_cases hlen : s.AllowedFromAddresses.length = 0
    · exact ⟨true, by simp [hlen]⟩
    · simp only [hlen, if_false, stringsSplit_one_at l d hl hd]
      exact ⟨_, rfl⟩
  · intro he a
    simp [Server.allowsFromAddress, he]

/-- C1 at a concrete input: the server that allows only `a.com` admits
`u@a.com`, through its domain. -/
theorem allowsFromAddress_single_at_witness :
    ('@' ∉ ("u" : String).data ∧ '@' ∉ ("a.com" : String).data)
      ∧ Server.allowsFromAddress { AllowedFromAddresses := ["a.com"] } "u@a.com" = some true :=
  ⟨by decide,
    ((allowsFromAddress_single_at { AllowedFromAddresses := ["a.com"] } "u" "a.com"
      (by decide) (by decide)).1).2 (Or.inr (Or.inr (by decide)))⟩

/-! ## Candidate servers -/

theorem splitChars_length_of_mem (sep : Char) (cs : List Char) (h : sep ∈ cs) :
    2 ≤ (splitChars sep cs).length := by
  induction cs with
  | nil => simp at h
  | cons c cs ih =>
    unfold splitChars
    by_cases hc : c = sep
    · have := splitChars_ne_nil sep cs
      have : 1 ≤ (splitChars sep cs).length := List.length_pos.mpr this
      simp only [hc, if_true, List.length_cons]
      omega
    · have hmem : sep ∈ cs := by
        rcases List.mem_cons.mp h with h1 | h1
        · exact absurd h1.symm hc
        · exact h1
      have ih1 := ih hmem
      simp only [hc, if_false]
      cases hsp : splitChars sep cs with
      | nil => simp [hsp] at ih1
      | cons p ps => simpa [hsp] using ih1

theorem allowsFromAddress_isSome (s : Server) (a : String) (h : '@' ∈ a.data) :
    ∃ b, s.allowsFromAddress a = some b := by
  unfold Server.allowsFromAddress
  by_cases hlen : s.AllowedFromAddresses.length = 0
  · exact ⟨true, by simp [hlen]⟩
  · have h2 : 1 < (stringsSplit a '@').length := by
      have := splitChars_length_of_mem '@' a.data h
      simp only [stringsSplit, List.length_map]
      omega
    simp only [hlen, if_false]
    rw [List.get?_eq_get h2]
    exact ⟨_, rfl⟩

theorem applicableLoop_eq_filter (a : String) (h : '@' ∈ a.data) (servers acc : List Server) :
    applicableLoop a servers acc
      = some (acc ++ servers.filter (fun s => decide (s.allowsFromAddress a = some true))) := by
  induction servers generalizing acc with
  | nil => simp [applicableLoop]
  | cons s rest ih =>
    obtain ⟨b, hb⟩ := allowsFromAddress_isSome s a h
    cases b with
    | true => simp [applicableLoop, hb, ih, List.filter_cons]
    | false => simp [applicableLoop, hb, ih, List.filter_cons]

theorem applicableServers_of_parse (ParseAddress : String → Option MailAddress)
    (servers : List Server) (fromAddress : String) (parsed : MailAddress)
    (hparse : ParseAddress fromAddress = some parsed) (hat : '@' ∈ parsed.Address.data) :
    applicableServers ParseAddress servers fromAddress
      = some (servers.filter (fun s => decide (s.allowsFromAddress parsed.Address = some true)),
              none) := by
  simp [applicableServers, hparse, applicableLoop_eq_filter _ hat]

/-- C2: when the From string parses (to an address that, as every result of
`mail.ParseAddress`, holds an `@`), `applicableServers` returns no error and
the configured servers that `allowsFromAddress` admits, in configured order. -/
theorem applicableServers_eq_filter (ParseAddress : String → Option MailAddress)
    (servers : List Server) (fromAddress : String) (parsed : MailAddress)
    (hparse : ParseAddress fromAddress = some parsed) (hat : '@' ∈ parsed.Address.data) :
    applicableServers ParseAddress servers fromAddress
      = some (servers.filter (fun s => decide (s.allowsFromAddress parsed.Address = some true)),
              none) :=
  applicableServers_of_parse ParseAddress servers fromAddress parsed hparse hat

/-- C2 at the scenario of the specification: server A allows only `a.com`,
server B allows all; `u@a.com` gives A and B, `u@c.com` gives B alone. -/
theorem applicableServers_eq_filter_witness :
    (parseBareAddress "u@a.com" = some { Address := "u@a.com" }
      ∧ parseBareAddress "u@c.com" = some { Address := "u@c.com" })
    ∧ applicableServers parseBareAddress
        [serverA, serverB] "u@a.com"
      = some ([serverA, serverB], none)
    ∧ applicableServers parseBareAddress
        [serverA, serverB] "u@c.com"
      = some ([serverB], none) :=
  ⟨⟨by decide, by decide⟩,
   applicableServers_eq_filter parseBareAddress
     [serverA, serverB]
     "u@a.com" { Address := "u@a.com" } (by decide) (by decide),
   applicableServers_eq_filter parseBareAddress
     [serverA, serverB]
     "u@c.com" { Address := "u@c.com" } (by decide) (by decide)⟩

/-- C3: when the From string does not parse, `applicableServers` returns
`ErrEmailInvalidFromAddress` with an empty candidate list, and `Push` returns
that error with an empty trace: no server selected, no email assembled,
nothing handed to a pool. -/
theorem push_invalid_from (ParseAddress : String → Option MailAddress) (Intn : Nat → Nat)
    (Send : Server → Email → Option GoError) (e : Emailer) (m : Message)
    (hparse : ParseAddress m.From = none) :
    applicableServers ParseAddress e.servers m.From = some ([], some ErrEmailInvalidFromAddress)
      ∧ Emailer.Push ParseAddress Intn Send e m
          = some { err := some ErrEmailInvalidFromAddress, trace := [] } := by
  simp [Emailer.Push, applicableServers, hparse]

/-- C3 at the input of the specification: `not-an-email` with two servers. -/
theorem push_invalid_from_witness :
    parseBareAddress "not-an-email" = none
    ∧ applicableServers parseBareAddress
        [serverA, serverB]
        "not-an-email" = some ([], some ErrEmailInvalidFromAddress)
    ∧ Emailer.Push parseBareAddress (fun _ => 0) (fun _ _ => none)
        { servers := [serverA, serverB] }
        { From := "not-an-email" }
      = some { err := some ErrEmailInvalidFromAddress, trace := [] } :=
  ⟨by decide,
   push_invalid_from parseBareAddress (fun _ => 0) (fun _ _ => none)
     { servers := [serverA, serverB] }
     { From := "not-an-email" } (by decide)⟩

/-! ## Maps and header sets -/

theorem mapGet_mapSet {κ ν : Type} [DecidableEq κ] (m : List (κ × ν)) (k n : κ) (v : ν) :
    mapGet (mapSet m k v) n = if k = n then some v else mapGet m n := by
  induction m with
  | nil => simp [mapSet, mapGet]
  | cons kv rest ih =>
    obtain ⟨k1, v1⟩ := kv
    by_cases h1 : k1 = k
    · subst h1
      by_cases h2 : k1 = n
      · simp [mapSet, mapGet, h2]
      · simp [mapSet, mapGet, h2]
    · by_cases h2 : k1 = n
      · subst h2
        have h3 : ¬ k = k1 := fun e => h1 e.symm
        simp [mapSet, mapGet, h1, h3]
      · simp [mapSet, mapGet, h1, h2, ih]

theorem mapGet_mapDel {κ ν : Type} [DecidableEq κ] (m : List (κ × ν)) (k n : κ) :
    mapGet (mapDel m k) n = if k = n then none else mapGet m n := by
  induction m with
  | nil => simp [mapDel, mapGet]
  | cons kv rest ih =>
    obtain ⟨k1, v1⟩ := kv
    by_cases h1 : k1 = k
    · subst h1
      by_cases h2 : k1 = n
      · subst h2
        simpa [mapDel, mapGet] using ih
      · simp [mapDel, mapGet, h2, ih]
    · by_cases h2 : k1 = n
      · subst h2
        have h3 : ¬ k = k1 := fun e => h1 e.symm
        simp [mapDel, mapGet, h1, h3]
      · simp [mapDel, mapGet, h1, h2, ih]

theorem getLast?_filter_cons {α : Type} (p : α → Bool) (x : α) (xs : List α) :
    ((x :: xs).filter p).getLast?
      = match (xs.filter p).getLast? with
        | some y => some y
        | none => if p x then some x else none := by
  by_cases hx : p x
  · cases hf : xs.filter p with
    | nil => simp [List.filter_cons, hx, hf]
    | cons y ys =>
      have hne : (y :: ys).getLast? = some ((y :: ys).getLast (by simp)) :=
        List.getLast?_eq_getLast _ _
      simp only [List.filter_cons, hx, hf, if_true, List.getLast?_cons_cons]
      rw [hne]
  · have hf : (x :: xs).filter p = xs.filter p := by simp [List.filter_cons, hx]
    rw [hf]
    cases (xs.filter p).getLast? with
    | none => simp [hx]
    | some y => rfl

/-- After the loop over the server's headers, a name holds the value of the
last visited entry whose key canonicalises to it, alone. -/
theorem mapGet_attachServerHeaders (h : MIMEHeader) (l : List (String × String)) (n : String) :
    mapGet (attachServerHeaders h l) n
      = match (l.filter (fun kv => decide (CanonicalMIMEHeaderKey kv.1 = n))).getLast? with
        | some kv => some [kv.2]
        | none => mapGet h n := by
  induction l generalizing h with
  | nil => simp [attachServerHeaders]
  | cons kv rest ih =>
    obtain ⟨k, v⟩ := kv
    rw [attachServerHeaders, ih, getLast?_filter_cons]
    cases (rest.filter (fun kv => decide (CanonicalMIMEHeaderKey kv.1 = n))).getLast? with
    | some y => rfl
    | none =>
      by_cases hk : CanonicalMIMEHeaderKey k = n
      · simp [MIMEHeader.Set, mapGet_mapSet, hk]
      · simp [MIMEHeader.Set, mapGet_mapSet, hk]

/-- After the loop over the message's headers, a name holds the first value
of the last visited entry whose key canonicalises to it, alone. -/
theorem mapGet_attachMessageHeaders (h h1 : MIMEHeader) (l : MIMEHeader) (n : String)
    (hl : attachMessageHeaders h l = some h1) :
    mapGet h1 n
      = match (l.filter (fun kv => decide (CanonicalMIMEHeaderKey kv.1 = n))).getLast? with
        | some kv => some (kv.2.take 1)
        | none => mapGet h n := by
  induction l generalizing h with
  | nil =>
    simp only [attachMessageHeaders, Option.some.injEq] at hl
    simp [hl]
  | cons kv rest ih =>
    obtain ⟨k, vs⟩ := kv
    cases vs with
    | nil => simp [attachMessageHeaders] at hl
    | cons v0 vrest =>
      simp only [attachMessageHeaders] at hl
      rw [ih _ hl, getLast?_filter_cons]
      cases (rest.filter (fun kv => decide (CanonicalMIMEHeaderKey kv.1 = n))).getLast? with
      | some y => rfl
      | none =>
        by_cases hk : CanonicalMIMEHeaderKey k = n
        · simp [MIMEHeader.Set, mapGet_mapSet, hk]
        · simp [MIMEHeader.Set, mapGet_mapSet, hk]

theorem attachMessageHeaders_isSome (h : MIMEHeader) (l : MIMEHeader)
    (hl : ∀ kv ∈ l, kv.2 ≠ []) : ∃ h1, attachMessageHeaders h l = some h1 := by
  induction l generalizing h with
  | nil => exact ⟨h, rfl⟩
  | cons kv rest ih =>
    obtain ⟨k, vs⟩ := kv
    cases vs with
    | nil => exact absurd rfl (hl (k, []) (by simp))
    | cons v0 vrest =>
      simp only [attachMessageHeaders]
      exact ih _ (fun kv hkv => hl kv (by simp [hkv]))

/-! ## Server selection in `Push` -/

theorem push_of_candidates (ParseAddress : String → Option MailAddress) (Intn : Nat → Nat)
    (Send : Server → Email → Option GoError) (e : Emailer) (m : Message)
    (cands : List Server)
    (happl : applicableServers ParseAddress e.servers m.From = some (cands, none)) :
    Emailer.Push ParseAddress Intn Send e m
      = if cands.length > 0 then
          match cands.get? (Intn cands.length) with
          | none => none
          | some srv =>
            match assembleEmail srv m with
            | none => none
            | some em =>
              some { err := Send srv em,
                     trace := [PushEvent.selected srv, PushEvent.assembled em,
                               PushEvent.handed srv em] }
        else some { err := some ErrEmailNoSMTPServerForFrom, trace := [] } := by
  unfold Emailer.Push
  rw [happl]

theorem assembleEmail_isSome (srv : Server) (m : Message) (hm : ∀ kv ∈ m.Headers, kv.2 ≠ []) :
    ∃ em, assembleEmail srv m = some em := by
  obtain ⟨h1, hh⟩ := attachMessageHeaders_isSome (attachServerHeaders [] srv.EmailHeaders)
    m.Headers hm
  unfold assembleEmail
  simp only [hh]
  split_ifs <;> exact ⟨_, rfl⟩

theorem push_candidates_cases (ParseAddress : String → Option MailAddress) (Intn : Nat → Nat)
    (Send : Server → Email → Option GoError) (e : Emailer) (m : Message) (parsed : MailAddress)
    (hparse : ParseAddress m.From = some parsed) (hat : '@' ∈ parsed.Address.data)
    (hIntn : ∀ n, 0 < n → Intn n < n) :
    ∃ cands, applicableServers ParseAddress e.servers m.From = some (cands, none)
      ∧ (∀ s ∈ cands, s ∈ e.servers ∧ s.allowsFromAddress parsed.Address = some true)
      ∧ (Emailer.Push ParseAddress Intn Send e m
            = some { err := some ErrEmailNoSMTPServerForFrom, trace := [] } ↔ cands = [])
      ∧ (cands ≠ [] →
          ∃ srv, cands.get? (Intn cands.length) = some srv ∧ srv ∈ cands
            ∧ (∀ c, cands = [c] → srv = c)
            ∧ (∀ r, Emailer.Push ParseAddress Intn Send e m = some r →
                ∃ em, r = { err := Send srv em,
                            trace := [PushEvent.selected srv, PushEvent.assembled em,
                                      PushEvent.handed srv em] })
            ∧ ((∀ kv ∈ m.Headers, kv.2 ≠ []) →
                ∃ r, Emailer.Push ParseAddress Intn Send e m = some r)) := by
  have happl := applicableServers_of_parse ParseAddress e.servers m.From parsed hparse hat
  refine ⟨_, happl, ?_, ?_, ?_⟩
  · intro s hs
    have := List.mem_filter.mp hs
    exact ⟨this.1, by simpa using this.2⟩
  · rw [push_of_candidates ParseAddress Intn Send e m _ happl]
    generalize e.servers.filter
      (fun s => decide (s.allowsFromAddress parsed.Address = some true)) = cands
    constructor
    · intro h
      by_contra hne
      have hpos : cands.length > 0 := List.length_pos.mpr hne
      rw [if_pos hpos] at h
      cases hg : cands.get? (Intn cands.length) with
      | none => rw [hg] at h; simp at h
      | some srv =>
        rw [hg] at h
        cases ha : assembleEmail srv m with
        | none => simp [ha] at h
        | some em => simp [ha] at h
    · intro h
      simp [h]
  · rw [push_of_candidates ParseAddress Intn Send e m _ happl]
    generalize e.servers.filter
      (fun s => decide (s.allowsFromAddress parsed.Address = some true)) = cands
    intro hne
    have hpos : cands.length > 0 := List.length_pos.mpr hne
    have hlt : Intn cands.length < cands.length := hIntn _ hpos
    refine ⟨cands.get ⟨Intn cands.length, hlt⟩, List.get?_eq_get hlt, List.get_mem _ _ _, ?_, ?_, ?_⟩
    · intro c hc
      subst hc
      have h0 : Intn 1 = 0 := by
        have := hIntn 1 (by decide)
        omega
      simp [h0]
    · intro r hr
      rw [if_pos hpos, List.get?_eq_get hlt] at hr
      dsimp only at hr
      cases ha : assembleEmail (cands.get ⟨Intn cands.length, hlt⟩) m with
      | none => rw [ha] at hr; exact absurd hr (by simp)
      | some em =>
        rw [ha] at hr
        exact ⟨em, (Option.some.inj hr).symm⟩
    · intro hm
      obtain ⟨em, hem⟩ := assembleEmail_isSome (cands.get ⟨Intn cands.length, hlt⟩) m hm
      rw [if_pos hpos, List.get?_eq_get hlt]
      dsimp only
      rw [hem]
      exact ⟨_, rfl⟩

/-- C4: with a From that parses, `Push` fails with
`ErrEmailNoSMTPServerForFrom` and an empty trace exactly when the candidate
list of `applicableServers` is empty; otherwise, whatever index `rand.Intn`
draws below the number of candidates, the server that is selected and whose
pool receives the email is the candidate at that index, a server that admits
the From address, and the only candidate when there is one. `Push` does
return when no header of the message has an empty value list. As long as no
pool returns the value `ErrEmailNoSMTPServerForFrom` itself, the error of
`Push` is that value exactly when the candidate list is empty. -/
theorem push_selects_candidate (ParseAddress : String → Option MailAddress) (Intn : Nat → Nat)
    (Send : Server → Email → Option GoError) (e : Emailer) (m : Message) (parsed : MailAddress)
    (hparse : ParseAddress m.From = some parsed) (hat : '@' ∈ parsed.Address.data)
    (hIntn : ∀ n, 0 < n → Intn n < n) :
    ∃ cands, applicableServers ParseAddress e.servers m.From = some (cands, none)
      ∧ (∀ s ∈ cands, s ∈ e.servers ∧ s.allowsFromAddress parsed.Address = some true)
      ∧ (Emailer.Push ParseAddress Intn Send e m
            = some { err := some ErrEmailNoSMTPServerForFrom, trace := [] } ↔ cands = [])
      ∧ (cands ≠ [] →
          ∃ srv, cands.get? (Intn cands.length) = some srv ∧ srv ∈ cands
            ∧ (∀ c, cands = [c] → srv = c)
            ∧ (∀ r, Emailer.Push ParseAddress Intn Send e m = some r →
                ∃ em, r = { err := Send srv em,
                            trace := [PushEvent.selected srv, PushEvent.assembled em,
                                      PushEvent.handed srv em] })
            ∧ ((∀ kv ∈ m.Headers, kv.2 ≠ []) →
                ∃ r, Emailer.Push ParseAddress Intn Send e m = some r))
      ∧ ((∀ s em, Send s em ≠ some ErrEmailNoSMTPServerForFrom) →
          ∀ r, Emailer.Push ParseAddress Intn Send e m = some r →
            (r.err = some ErrEmailNoSMTPServerForFrom ↔ cands = [])) := by
  obtain ⟨cands, happl, hmem, hiff, hsel⟩ :=
    push_candidates_cases ParseAddress Intn Send e m parsed hparse hat hIntn
  refine ⟨cands, happl, hmem, hiff, hsel, ?_⟩
  intro hSend r hr
  by_cases hc : cands = []
  · have hpush := hiff.mpr hc
    rw [hpush] at hr
    have hr1 := Option.some.inj hr
    rw [← hr1]
    exact ⟨fun _ => hc, fun _ => rfl⟩
  · obtain ⟨srv, -, -, -, hres, -⟩ := hsel hc
    obtain ⟨em, hem⟩ := hres r hr
    rw [hem]
    exact ⟨fun h => absurd h (hSend srv em), fun h => absurd h hc⟩

/-- C4 at a concrete input: of the servers A (only `a.com`) and B (all), the
candidates for `u@c.com` exist and are not empty, so `Push` does not fail
with `ErrEmailNoSMTPServerForFrom`. -/
theorem push_selects_candidate_witness :
    parseBareAddress "u@c.com" = some { Address := "u@c.com" }
    ∧ '@' ∈ ("u@c.com" : String).data
    ∧ (∀ n : Nat, 0 < n → (fun _ : Nat => 0) n < n)
    ∧ ∃ cands, applicableServers parseBareAddress
          [serverA, serverB] "u@c.com"
          = some (cands, none)
        ∧ (Emailer.Push parseBareAddress (fun _ => 0) (fun _ _ => none)
            { servers := [serverA, serverB] }
            { From := "u@c.com" }
            = some { err := some ErrEmailNoSMTPServerForFrom, trace := [] } ↔ cands = []) :=
  ⟨by decide, by decide, fun _ h => h,
   (push_selects_candidate parseBareAddress (fun _ => 0) (fun _ _ => none)
      { servers := [serverA, serverB] }
      { From := "u@c.com" } { Address := "u@c.com" } (by decide) (by decide)
      (fun _ h => h)).imp (fun _ hc => ⟨hc.1, hc.2.2.1⟩)⟩

/-! ## The assembled email -/

theorem push_handed (ParseAddress : String → Option MailAddress) (Intn : Nat → Nat)
    (Send : Server → Email → Option GoError) (e : Emailer) (m : Message)
    (r : PushResult) (srv : Server) (em : Email)
    (hpush : Emailer.Push ParseAddress Intn Send e m = some r)
    (hh : PushEvent.handed srv em ∈ r.trace) : assembleEmail srv m = some em := by
  unfold Emailer.Push at hpush
  cases happl : applicableServers ParseAddress e.servers m.From with
  | none => rw [happl] at hpush; exact absurd hpush (by simp)
  | some p =>
    obtain ⟨cands, oerr⟩ := p
    rw [happl] at hpush
    cases oerr with
    | some err =>
      dsimp only at hpush
      have hr := Option.some.inj hpush
      rw [← hr] at hh
      simp at hh
    | none =>
      dsimp only at hpush
      by_cases hpos : cands.length > 0
      · rw [if_pos hpos] at hpush
        cases hg : cands.get? (Intn cands.length) with
        | none => rw [hg] at hpush; exact absurd hpush (by simp)
        | some srv1 =>
          rw [hg] at hpush
          dsimp only at hpush
          cases ha : assembleEmail srv1 m with
          | none => rw [ha] at hpush; exact absurd hpush (by simp)
          | some em1 =>
            rw [ha] at hpush
            have hr := Option.some.inj hpush
            rw [← hr] at hh
            simp at hh
            rw [hh.1, hh.2]
            exact ha
      · rw [if_neg hpos] at hpush
        have hr := Option.some.inj hpush
        rw [← hr] at hh
        simp at hh

theorem assembleEmail_fields (srv : Server) (m : Message) (em : Email)
    (h : assembleEmail srv m = some em) :
    ∃ headers, attachMessageHeaders (attachServerHeaders [] srv.EmailHeaders) m.Headers
        = some headers
      ∧ em.Sender = MIMEHeader.Get headers hdrReturnPath
      ∧ em.Headers = (if MIMEHeader.Get headers hdrReturnPath ≠ ""
          then MIMEHeader.Del headers hdrReturnPath else headers)
      ∧ em.Text = (if m.ContentType = "plain" then m.Body
          else if m.AltBody.length > 0 then m.AltBody else "")
      ∧ em.HTML = (if m.ContentType = "plain" then "" else m.Body) := by
  unfold assembleEmail at h
  cases hh : attachMessageHeaders (attachServerHeaders [] srv.EmailHeaders) m.Headers with
  | none => rw [hh] at h; exact absurd h (by simp)
  | some headers =>
    rw [hh] at h
    refine ⟨headers, rfl, ?_⟩
    dsimp only at h
    by_cases hs : MIMEHeader.Get headers hdrReturnPath = ""
    · by_cases hp : m.ContentType = "plain"
      · simp only [hs, hp, ne_eq, not_true_eq_false, if_false, if_true, Option.some.injEq] at h
        subst h
        simp [hs, hp]
      · by_cases hal : m.AltBody.length > 0
        · simp only [hs, hp, hal, ne_eq, not_true_eq_false, if_false, if_true,
            Option.some.injEq] at h
          subst h
          simp [hs, hp, hal]
        · simp only [hs, hp, hal, ne_eq, not_true_eq_false, if_false,
            Option.some.injEq] at h
          subst h
          simp [hs, hp, hal]
    · by_cases hp : m.ContentType = "plain"
      · simp only [hs, hp, ne_eq, not_false_eq_true, if_true, Option.some.injEq] at h
        subst h
        simp [hs, hp]
      · by_cases hal : m.AltBody.length > 0
        · simp only [hs, hp, hal, ne_eq, not_false_eq_true, if_false, if_true,
            Option.some.injEq] at h
          subst h
          simp [hs, hp, hal]
        · simp only [hs, hp, hal, ne_eq, not_false_eq_true, if_false, if_true,
            Option.some.injEq] at h
          subst h
          simp [hs, hp, hal]

theorem canonical_returnPath : CanonicalMIMEHeaderKey hdrReturnPath = hdrReturnPath := by
  decide

theorem push_headers_lookup (srv : Server) (m : Message) (headers : MIMEHeader) (n : String)
    (h : attachMessageHeaders (attachServerHeaders [] srv.EmailHeaders) m.Headers = some headers) :
    mapGet headers n
      = match (m.Headers.filter (fun kv => decide (CanonicalMIMEHeaderKey kv.1 = n))).getLast? with
        | some kv => some (kv.2.take 1)
        | none =>
          match (srv.EmailHeaders.filter
              (fun kv => decide (CanonicalMIMEHeaderKey kv.1 = n))).getLast? with
          | some kv => some [kv.2]
          | none => none := by
  rw [mapGet_attachMessageHeaders _ _ _ n h, mapGet_attachServerHeaders]
  rfl

/-- C5, as the code has it: under a header name other than Return-Path the
assembled email holds one value only. It is the first value of the message
entry whose key canonicalises to that name (the last such entry in iteration
order), which replaces the server's value; without such an entry it is the
value of the server entry for that name; without either, the name is absent. -/
theorem push_headers_override (ParseAddress : String → Option MailAddress) (Intn : Nat → Nat)
    (Send : Server → Email → Option GoError) (e : Emailer) (m : Message)
    (r : PushResult) (srv : Server) (em : Email)
    (hpush : Emailer.Push ParseAddress Intn Send e m = some r)
    (hh : PushEvent.handed srv em ∈ r.trace) (n : String) (hn : n ≠ hdrReturnPath) :
    mapGet em.Headers n
      = match (m.Headers.filter (fun kv => decide (CanonicalMIMEHeaderKey kv.1 = n))).getLast? with
        | some kv => some (kv.2.take 1)
        | none =>
          match (srv.EmailHeaders.filter
              (fun kv => decide (CanonicalMIMEHeaderKey kv.1 = n))).getLast? with
          | some kv => some [kv.2]
          | none => none := by
  obtain ⟨headers, hattach, -, hhead, -, -⟩ :=
    assembleEmail_fields srv m em (push_handed ParseAddress Intn Send e m r srv em hpush hh)
  rw [← push_headers_lookup srv m headers n hattach, hhead]
  have hne : ¬ hdrReturnPath = n := fun h => hn h.symm
  by_cases hs : MIMEHeader.Get headers hdrReturnPath = ""
  · simp [hs]
  · simp [hs, MIMEHeader.Del, mapGet_mapDel, canonical_returnPath, hne]

/-- C5 at a concrete input: the message value `m1` stands alone under `X-Tag`. -/
theorem push_headers_override_witness :
    Emailer.Push parseBareAddress (fun _ => 0) (fun _ _ => none)
        { servers := [taggedServer] } taggedMessage
      = some { err := none,
               trace := [PushEvent.selected taggedServer, PushEvent.assembled taggedEmail,
                         PushEvent.handed taggedServer taggedEmail] }
    ∧ "X-Tag" ≠ hdrReturnPath
    ∧ mapGet taggedEmail.Headers "X-Tag" = some ["m1"] :=
  ⟨by decide, by decide,
   push_headers_override parseBareAddress (fun _ => 0) (fun _ _ => none)
     { servers := [taggedServer] } taggedMessage
     { err := none,
       trace := [PushEvent.selected taggedServer, PushEvent.assembled taggedEmail,
                 PushEvent.handed taggedServer taggedEmail] }
     taggedServer taggedEmail (by decide) (by decide) "X-Tag" (by decide)⟩

/-- C5 fails as stated: the server sets `X-Tag: server`, the message gives
`X-Tag` the values `m1` and `m2`, and the assembled email holds `m1` alone:
the server value is replaced and `m2` is dropped. -/
theorem push_headers_not_additive :
    Emailer.Push parseBareAddress (fun _ => 0) (fun _ _ => none)
        { servers := [taggedServer] } taggedMessage
      = some { err := none,
               trace := [PushEvent.selected taggedServer, PushEvent.assembled taggedEmail,
                         PushEvent.handed taggedServer taggedEmail] }
    ∧ ("X-Tag", "server") ∈ taggedServer.EmailHeaders
    ∧ ("X-Tag", ["m1", "m2"]) ∈ taggedMessage.Headers
    ∧ "server" ∉ (mapGet taggedEmail.Headers "X-Tag").getD []
    ∧ "m2" ∉ (mapGet taggedEmail.Headers "X-Tag").getD [] := by
  decide

/-- C6, as the code has it: when the merged Return-Path value is not empty,
it becomes the envelope sender and the assembled email has no Return-Path
entry. The merged value is the first value of the message entry whose key
canonicalises to `Return-Path` (the last such entry in iteration order) or,
when the message has none, the value of the server entry. -/
theorem push_return_path (ParseAddress : String → Option MailAddress) (Intn : Nat → Nat)
    (Send : Server → Email → Option GoError) (e : Emailer) (m : Message)
    (r : PushResult) (srv : Server) (em : Email)
    (hpush : Emailer.Push ParseAddress Intn Send e m = some r)
    (hh : PushEvent.handed srv em ∈ r.trace) :
    (∀ kv v,
        (m.Headers.filter
          (fun kv => decide (CanonicalMIMEHeaderKey kv.1 = hdrReturnPath))).getLast? = some kv →
        kv.2.head? = some v → v ≠ "" →
        em.Sender = v ∧ mapGet em.Headers hdrReturnPath = none)
    ∧ (m.Headers.filter (fun kv => decide (CanonicalMIMEHeaderKey kv.1 = hdrReturnPath)) = [] →
        ∀ kv,
          (srv.EmailHeaders.filter
            (fun kv => decide (CanonicalMIMEHeaderKey kv.1 = hdrReturnPath))).getLast? = some kv →
          kv.2 ≠ "" →
          em.Sender = kv.2 ∧ mapGet em.Headers hdrReturnPath = none) := by
  obtain ⟨headers, hattach, hsender, hhead, -, -⟩ :=
    assembleEmail_fields srv m em (push_handed ParseAddress Intn Send e m r srv em hpush hh)
  have hlook := push_headers_lookup srv m headers hdrReturnPath hattach
  have hdel : ∀ v, MIMEHeader.Get headers hdrReturnPath = v → v ≠ "" →
      em.Sender = v ∧ mapGet em.Headers hdrReturnPath = none := by
    intro v hv hne
    rw [hsender, hhead, hv]
    simp [hne, MIMEHeader.Del, mapGet_mapDel, canonical_returnPath]
  constructor
  · intro kv v hlast hhd hne
    apply hdel v _ hne
    rw [hlast] at hlook
    obtain ⟨k, vs⟩ := kv
    cases vs with
    | nil => simp at hhd
    | cons v0 vrest =>
      simp only [List.head?_cons, Option.some.injEq] at hhd
      subst hhd
      simp only [MIMEHeader.Get, canonical_returnPath, hlook]
      rfl
  · intro hnil kv hlast hne
    apply hdel kv.2 _ hne
    rw [hnil, hlast] at hlook
    simp only [MIMEHeader.Get, canonical_returnPath, hlook]
    rfl

/-- C6 at a concrete input: the server's `return-path` header becomes the
envelope sender of the assembled email, which has no Return-Path entry. -/
theorem push_return_path_witness :
    Emailer.Push parseBareAddress (fun _ => 0) (fun _ _ => none)
        { servers := [taggedServer] } taggedMessage
      = some { err := none,
               trace := [PushEvent.selected taggedServer, PushEvent.assembled taggedEmail,
                         PushEvent.handed taggedServer taggedEmail] }
    ∧ taggedEmail.Sender = "bounce@a.com" ∧ mapGet taggedEmail.Headers hdrReturnPath = none :=
  ⟨by decide,
   (push_return_path parseBareAddress (fun _ => 0) (fun _ _ => none)
     { servers := [taggedServer] } taggedMessage
     { err := none,
       trace := [PushEvent.selected taggedServer, PushEvent.assembled taggedEmail,
                 PushEvent.handed taggedServer taggedEmail] }
     taggedServer taggedEmail (by decide) (by decide)).2 (by decide)
     ("return-path", "bounce@a.com") (by decide) (by decide)⟩

/-- C6 fails as stated: a message whose Return-Path header has the empty
value is assembled into an email that still has the Return-Path entry. -/
theorem push_return_path_empty_kept :
    Emailer.Push parseBareAddress (fun _ => 0) (fun _ _ => none)
        { servers := [serverB] } emptyReturnPathMessage
      = some { err := none,
               trace := [PushEvent.selected serverB, PushEvent.assembled emptyReturnPathEmail,
                         PushEvent.handed serverB emptyReturnPathEmail] }
    ∧ (hdrReturnPath, [""]) ∈ emptyReturnPathMessage.Headers
    ∧ mapGet emptyReturnPathEmail.Headers hdrReturnPath = some [""]
    ∧ mapGet emptyReturnPathEmail.Headers hdrReturnPath ≠ none := by
  decide

/-! ## Body parts -/

theorem string_length_pos_iff (s : String) : s.length > 0 ↔ s ≠ "" := by
  constructor
  · intro h e
    rw [e] at h
    exact absurd h (by decide)
  · intro h
    by_contra hn
    apply h
    have h0 : s.data.length = 0 := by
      have : s.length = s.data.length := rfl
      omega
    have hd : s.data = [] := List.length_eq_zero.mp h0
    exact String.ext hd

/-- C7: in the email that `Push` assembles, content type `plain` gives a text
part equal to the body and an empty HTML part, whatever the alternate body;
any other content type gives an HTML part equal to the body, and a text part
that is the alternate body when this is not empty and is empty otherwise. -/
theorem push_body_parts (ParseAddress : String → Option MailAddress) (Intn : Nat → Nat)
    (Send : Server → Email → Option GoError) (e : Emailer) (m : Message)
    (r : PushResult) (srv : Server) (em : Email)
    (hpush : Emailer.Push ParseAddress Intn Send e m = some r)
    (hh : PushEvent.handed srv em ∈ r.trace) :
    (m.ContentType = "plain" → em.Text = m.Body ∧ em.HTML = "")
    ∧ (m.ContentType ≠ "plain" →
        em.HTML = m.Body
        ∧ (m.AltBody ≠ "" → em.Text = m.AltBody)
        ∧ (m.AltBody = "" → em.Text = "")) := by
  obtain ⟨headers, -, -, -, htext, hhtml⟩ :=
    assembleEmail_fields srv m em (push_handed ParseAddress Intn Send e m r srv em hpush hh)
  constructor
  · intro hp
    simp [htext, hhtml, hp]
  · intro hp
    refine ⟨by simp [hhtml, hp], ?_, ?_⟩
    · intro ha
      have := (string_length_pos_iff m.AltBody).mpr ha
      simp [htext, hp, this]
    · intro ha
      simp [htext, hp, ha]

/-- C7 at a concrete input: an `html` message with an alternate body gives an
email with both parts. -/
theorem push_body_parts_witness :
    Emailer.Push parseBareAddress (fun _ => 0) (fun _ _ => none)
        { servers := [taggedServer] } taggedMessage
      = some { err := none,
               trace := [PushEvent.selected taggedServer, PushEvent.assembled taggedEmail,
                         PushEvent.handed taggedServer taggedEmail] }
    ∧ taggedMessage.ContentType ≠ "plain"
    ∧ taggedEmail.HTML = taggedMessage.Body ∧ taggedEmail.Text = taggedMessage.AltBody :=
  ⟨by decide, by decide,
   ((push_body_parts parseBareAddress (fun _ => 0) (fun _ _ => none)
     { servers := [taggedServer] } taggedMessage
     { err := none,
       trace := [PushEvent.selected taggedServer, PushEvent.assembled taggedEmail,
                 PushEvent.handed taggedServer taggedEmail] }
     taggedServer taggedEmail (by decide) (by decide)).2 (by decide)).1,
   (((push_body_parts parseBareAddress (fun _ => 0) (fun _ _ => none)
     { servers := [taggedServer] } taggedMessage
     { err := none,
       trace := [PushEvent.selected taggedServer, PushEvent.assembled taggedEmail,
                 PushEvent.handed taggedServer taggedEmail] }
     taggedServer taggedEmail (by decide) (by decide)).2 (by decide)).2).1 (by decide)⟩

/-! ## Validation of the request -/

theorem validateTxMessageSync_err (m : TxMessage) (app : App) :
    (validateTxMessageSync m app).2 =
      if m.SubscriberEmail = "" ∧ m.SubscriberID = 0 then
        some (GoError.http 400
          (app.Ts "globals.messages.missingFields" ["name", "subscriber_email or subscriber_id"]))
      else if m.SubscriberEmail ≠ "" ∧ (app.SanitizeEmail m.SubscriberEmail).2 ≠ none then
        (app.SanitizeEmail m.SubscriberEmail).2.map (fun err => GoError.http 400 err.Error)
      else if m.Messenger ≠ "" ∧ app.HasMessenger m.Messenger = false then
        some (GoError.http 400 (app.Ts "campaigns.fieldInvalidMessenger" ["name", m.Messenger]))
      else none := by
  unfold validateTxMessageSync
  by_cases ha : m.SubscriberEmail = "" ∧ m.SubscriberID = 0
  · simp [ha]
  · rw [if_neg ha, if_neg ha]
    rcases hs : app.SanitizeEmail m.SubscriberEmail with ⟨em, oerr⟩
    by_cases he : m.SubscriberEmail = "" <;> by_cases hf : m.FromEmail = "" <;>
      by_cases hm : m.Messenger = "" <;> by_cases hh : app.HasMessenger m.Messenger = true <;>
      cases oerr <;> simp [he, hm, hh, hf]

theorem validateTxMessage_err (m : TxMessage) (app : App) :
    (validateTxMessage m app).2 =
      if m.SubscriberEmail = "" ∧ m.SubscriberID = 0 then
        some (GoError.http 400
          (app.Ts "globals.messages.missingFields" ["name", "subscriber_email or subscriber_id"]))
      else if m.SubscriberEmail ≠ "" ∧ (app.SanitizeEmail m.SubscriberEmail).2 ≠ none then
        (app.SanitizeEmail m.SubscriberEmail).2.map (fun err => GoError.http 400 err.Error)
      else if m.Messenger ≠ "" ∧ app.HasMessenger m.Messenger = false then
        some (GoError.http 400 (app.Ts "campaigns.fieldInvalidMessenger" ["name", m.Messenger]))
      else none := by
  unfold validateTxMessage
  by_cases ha : m.SubscriberEmail = "" ∧ m.SubscriberID = 0
  · simp [ha]
  · rw [if_neg ha, if_neg ha]
    rcases hs : app.SanitizeEmail m.SubscriberEmail with ⟨em, oerr⟩
    by_cases he : m.SubscriberEmail = "" <;> by_cases hf : m.FromEmail = "" <;>
      by_cases hm : m.Messenger = "" <;> by_cases hh : app.HasMessenger m.Messenger = true <;>
      cases oerr <;> simp [he, hm, hh, hf]

/-- C8: `validateTxMessageSync` and `validateTxMessage` return an error
exactly when (a) the request has neither subscriber email nor subscriber id,
or (b) it has an email that the sanitizer rejects, or (c) it names a messenger
that is not registered. Every such error is an HTTP error with status 400;
when the checks (a) and (b) pass, the error of (c) is built from the messenger
name; an empty messenger name causes no error. -/
theorem validate_error_iff (m : TxMessage) (app : App) :
    ((validateTxMessageSync m app).2 ≠ none ↔
        (m.SubscriberEmail = "" ∧ m.SubscriberID = 0)
        ∨ (m.SubscriberEmail ≠ "" ∧ (app.SanitizeEmail m.SubscriberEmail).2 ≠ none)
        ∨ (m.Messenger ≠ "" ∧ app.HasMessenger m.Messenger = false))
    ∧ ((validateTxMessage m app).2 ≠ none ↔
        (m.SubscriberEmail = "" ∧ m.SubscriberID = 0)
        ∨ (m.SubscriberEmail ≠ "" ∧ (app.SanitizeEmail m.SubscriberEmail).2 ≠ none)
        ∨ (m.Messenger ≠ "" ∧ app.HasMessenger m.Messenger = false))
    ∧ (∀ err, (validateTxMessageSync m app).2 = some err ∨ (validateTxMessage m app).2 = some err →
        ∃ message, err = GoError.http 400 message)
    ∧ (¬ (m.SubscriberEmail = "" ∧ m.SubscriberID = 0) →
        ¬ (m.SubscriberEmail ≠ "" ∧ (app.SanitizeEmail m.SubscriberEmail).2 ≠ none) →
        m.Messenger ≠ "" → app.HasMessenger m.Messenger = false →
        (validateTxMessageSync m app).2
            = some (GoError.http 400
                (app.Ts "campaigns.fieldInvalidMessenger" ["name", m.Messenger]))
        ∧ (validateTxMessage m app).2
            = some (GoError.http 400
                (app.Ts "campaigns.fieldInvalidMessenger" ["name", m.Messenger])))
    ∧ (m.Messenger = "" →
        ((validateTxMessageSync m app).2 ≠ none ↔
          (m.SubscriberEmail = "" ∧ m.SubscriberID = 0)
          ∨ (m.SubscriberEmail ≠ "" ∧ (app.SanitizeEmail m.SubscriberEmail).2 ≠ none))
        ∧ ((validateTxMessage m app).2 ≠ none ↔
          (m.SubscriberEmail = "" ∧ m.SubscriberID = 0)
          ∨ (m.SubscriberEmail ≠ "" ∧ (app.SanitizeEmail m.SubscriberEmail).2 ≠ none))) := by
  rw [validateTxMessageSync_err, validateTxMessage_err]
  split_ifs with ha hb hc
  · refine ⟨⟨fun _ => Or.inl ha, fun _ => by simp⟩, ⟨fun _ => Or.inl ha, fun _ => by simp⟩,
      ?_, fun h => absurd ha h,
      fun _ => ⟨⟨fun _ => Or.inl ha, fun _ => by simp⟩, ⟨fun _ => Or.inl ha, fun _ => by simp⟩⟩⟩
    intro err herr
    rcases herr with h | h <;> exact ⟨_, (Option.some.inj h).symm⟩
  · obtain ⟨serr, hs⟩ : ∃ serr, (app.SanitizeEmail m.SubscriberEmail).2 = some serr :=
      Option.ne_none_iff_exists'.mp hb.2
    have hmap : (app.SanitizeEmail m.SubscriberEmail).2.map (fun err => GoError.http 400 err.Error)
        = some (GoError.http 400 serr.Error) := by rw [hs]; rfl
    rw [hmap]
    refine ⟨⟨fun _ => Or.inr (Or.inl hb), fun _ => by simp⟩,
      ⟨fun _ => Or.inr (Or.inl hb), fun _ => by simp⟩,
      ?_, fun _ h => absurd hb h,
      fun _ => ⟨⟨fun _ => Or.inr hb, fun _ => by simp⟩, ⟨fun _ => Or.inr hb, fun _ => by simp⟩⟩⟩
    intro err herr
    rcases herr with h | h <;> exact ⟨_, (Option.some.inj h).symm⟩
  · refine ⟨⟨fun _ => Or.inr (Or.inr hc), fun _ => by simp⟩,
      ⟨fun _ => Or.inr (Or.inr hc), fun _ => by simp⟩,
      ?_, fun _ _ _ _ => ⟨rfl, rfl⟩, fun h => absurd h hc.1⟩
    intro err herr
    rcases herr with h | h <;> exact ⟨_, (Option.some.inj h).symm⟩
  · have hnone : ¬ ((m.SubscriberEmail = "" ∧ m.SubscriberID = 0)
        ∨ (m.SubscriberEmail ≠ "" ∧ (app.SanitizeEmail m.SubscriberEmail).2 ≠ none)
        ∨ (m.Messenger ≠ "" ∧ app.HasMessenger m.Messenger = false)) := by
      rintro (h | h | h)
      · exact ha h
      · exact hb h
      · exact hc h
    have hnone2 : ¬ ((m.SubscriberEmail = "" ∧ m.SubscriberID = 0)
        ∨ (m.SubscriberEmail ≠ "" ∧ (app.SanitizeEmail m.SubscriberEmail).2 ≠ none)) := by
      rintro (h | h)
      · exact ha h
      · exact hb h
    refine ⟨⟨fun h => absurd rfl h, fun h => absurd h hnone⟩,
      ⟨fun h => absurd rfl h, fun h => absurd h hnone⟩,
      ?_, fun _ _ h1 h2 => absurd ⟨h1, h2⟩ hc,
      fun _ => ⟨⟨fun h => absurd rfl h, fun h => absurd h hnone2⟩,
        ⟨fun h => absurd rfl h, fun h => absurd h hnone2⟩⟩⟩
    intro err herr
    rcases herr with h | h <;> exact absurd h (by simp)

/-! ## Classification of the push result -/

theorem resolveTemplate_no_push (app : App) (cache : TplCache) (id : Int)
    (msgr : String) (msg : Message) (res : Option GoError) :
    Step.push msgr msg res ∉ (resolveTemplate app cache id).2.2 := by
  unfold resolveTemplate refreshTemplate
  repeat (first | split | simp)

theorem sync_push_inv (app : App) (bind : Except GoError TxMessage) (cache : TplCache)
    (out : Outcome) (h : handleSendTxMessageSync app bind cache = some out)
    (msgr : String) (msg : Message) (res : Option GoError)
    (hstep : Step.push msgr msg res ∈ out.trace) :
    (∃ push, app.messengers msgr = some push ∧ push msg = some res)
    ∧ (res = none → out.reply = Reply.json 200 true)
    ∧ (∀ err, res = some err → out.reply = Reply.fail (classifyPushError err))
    ∧ out.trace.count (Step.push msgr msg res) = 1 := by
  unfold handleSendTxMessageSync at h
  cases bind with
  | error err =>
    simp only [Option.some.injEq] at h
    subst h
    simp at hstep
  | ok m0 =>
    dsimp only at h
    rcases hv : validateTxMessageSync m0 app with ⟨m, _ | verr⟩
    · rw [hv] at h
      dsimp only at h
      have hnp := resolveTemplate_no_push app cache m.TemplateID msgr msg res
      rcases ht : resolveTemplate app cache m.TemplateID with ⟨_ | tpl, cache1, tr⟩
      · rw [ht] at h hnp
        simp only [Option.some.injEq] at h
        subst h
        exact absurd hstep hnp
      · rw [ht] at h hnp
        dsimp only at h hnp
        cases hs : resolveSubscriber app m with
        | error serr =>
          rw [hs] at h
          simp only [Option.some.injEq] at h
          subst h
          simp [hnp] at hstep
        | ok sub =>
          rw [hs] at h
          dsimp only at h
          rcases hr : app.Render m sub tpl with ⟨m1, _ | rerr⟩
          · rw [hr] at h
            dsimp only at h
            cases hm : app.messengers m1.Messenger with
            | none => rw [hm] at h; exact absurd h (by simp)
            | some push =>
              rw [hm] at h
              dsimp only at h
              have hcount : List.count (Step.push msgr msg res) tr = 0 :=
                List.count_eq_zero.mpr hnp
              split at h
              · exact absurd h (by simp)
              · rename_i hp
                simp only [Option.some.injEq] at h
                subst h
                simp [hnp] at hstep
                obtain ⟨h1, h2, h3⟩ := hstep
                subst h1 h2 h3
                refine ⟨⟨push, hm, hp⟩, fun _ => rfl, fun err he => absurd he (by simp), ?_⟩
                simp [List.count_append, hcount, List.count_cons]
              · rename_i perr hp
                simp only [Option.some.injEq] at h
                subst h
                simp [hnp] at hstep
                obtain ⟨h1, h2, h3⟩ := hstep
                subst h1 h2 h3
                refine ⟨⟨push, hm, hp⟩, fun he => absurd he (by simp), ?_, ?_⟩
                · intro err he
                  cases he
                  rfl
                · simp [List.count_append, hcount, List.count_cons]
          · rw [hr] at h
            simp only [Option.some.injEq] at h
            subst h
            simp [hnp] at hstep
    · rw [hv] at h
      simp only [Option.some.injEq] at h
      subst h
      simp at hstep

/-- C9: in `handleSendTxMessageSync` the result of the backend's `Push` is
classified once. No error gives the JSON reply 200; an error whose text is
`timed out waiting for free conn in pool` gives status 429; an error whose
text is that of `ErrEmailInvalidFromAddress` or `ErrEmailNoSMTPServerForFrom`
gives status 400; any other error gives status 500. When the backend is an
`Emailer`, a From address that does not parse and a From address that no
server allows both end in status 400. -/
theorem sync_push_classified (app : App) (bind : Except GoError TxMessage) (cache : TplCache)
    (out : Outcome) (h : handleSendTxMessageSync app bind cache = some out)
    (msgr : String) (msg : Message) (res : Option GoError)
    (hstep : Step.push msgr msg res ∈ out.trace) :
    out.trace.count (Step.push msgr msg res) = 1
    ∧ (res = none → out.reply = Reply.json 200 true)
    ∧ (∀ err, res = some err →
        (err.Error = "timed out waiting for free conn in pool" →
          out.reply = Reply.fail (GoError.http 429 err.Error))
        ∧ (err.Error = ErrEmailInvalidFromAddress.Error
            ∨ err.Error = ErrEmailNoSMTPServerForFrom.Error →
          out.reply = Reply.fail (GoError.http 400 err.Error))
        ∧ (err.Error ≠ "timed out waiting for free conn in pool" →
            err.Error ≠ ErrEmailInvalidFromAddress.Error →
            err.Error ≠ ErrEmailNoSMTPServerForFrom.Error →
          out.reply = Reply.fail (GoError.http 500 err.Error)))
    ∧ (∀ (ParseAddress : String → Option MailAddress) (Intn : Nat → Nat)
        (Send : Server → Email → Option GoError) (e : Emailer) (r : PushResult),
        Emailer.Push ParseAddress Intn Send e msg = some r → res = r.err →
        (ParseAddress msg.From = none →
          out.reply = Reply.fail (GoError.http 400 "invalid FROM email address"))
        ∧ (applicableServers ParseAddress e.servers msg.From = some ([], none) →
          out.reply
            = Reply.fail (GoError.http 400 "no applicable SMTP server for FROM address"))) := by
  obtain ⟨-, hnone, hsome, hcount⟩ := sync_push_inv app bind cache out h msgr msg res hstep
  refine ⟨hcount, hnone, ?_, ?_⟩
  · intro err herr
    rw [hsome err herr]
    refine ⟨?_, ?_, ?_⟩
    · intro ht
      simp [classifyPushError, ht]
    · intro ht
      have hne : err.Error ≠ "timed out waiting for free conn in pool" := by
        rcases ht with ht | ht <;> rw [ht] <;> decide
      simp [classifyPushError, hne, ht]
    · intro h1 h2 h3
      simp [classifyPushError, h1, h2, h3]
  · intro ParseAddress Intn Send e r hpush hres
    constructor
    · intro hparse
      have hr : r = { err := some ErrEmailInvalidFromAddress, trace := [] } := by
        simpa [Emailer.Push, applicableServers, hparse] using hpush.symm
      rw [hr] at hres
      rw [hsome _ hres]
      rfl
    · intro happl
      rw [push_of_candidates ParseAddress Intn Send e msg [] happl] at hpush
      have hr : r = { err := some ErrEmailNoSMTPServerForFrom, trace := [] } := by
        simpa using hpush.symm
      rw [hr] at hres
      rw [hsome _ hres]
      rfl

/-- C9 at a concrete input: a request whose From address no server allows
ends in status 400. -/
theorem sync_push_classified_witness :
    handleSendTxMessageSync sampleApp (.ok foreignFromRequest) [] = some foreignFromOutcome
    ∧ Step.push "email" foreignFromMessage (some ErrEmailNoSMTPServerForFrom)
        ∈ foreignFromOutcome.trace
    ∧ foreignFromOutcome.reply
        = Reply.fail (GoError.http 400 "no applicable SMTP server for FROM address") :=
  ⟨by decide, by decide,
   ((sync_push_classified sampleApp (.ok foreignFromRequest) [] foreignFromOutcome (by decide)
      "email" foreignFromMessage (some ErrEmailNoSMTPServerForFrom) (by decide)).2.2.1
      ErrEmailNoSMTPServerForFrom rfl).2.1 (Or.inr rfl)⟩

/-! ## Subscriber lookup -/

/-- C10 at the failing input: the subscriber store fails with an error that is
not an HTTP error, the request carries an email, and both handlers go on to
render and push and reply with success instead of returning the lookup
error. -/
theorem lookup_failure_not_http_continues :
    brokenStoreApp.GetSubscriber 0 "" "new@y.com"
        = ({}, some (GoError.other 7 "pq: connection refused"))
    ∧ errorsAsHTTP (GoError.other 7 "pq: connection refused") = none
    ∧ (handleSendTxMessageSync brokenStoreApp (.ok plainRequest) []).map Outcome.reply
        = some (Reply.json 200 true)
    ∧ (handleSendTxMessage brokenStoreApp (.ok plainRequest) []).map Outcome.reply
        = some (Reply.json 200 true)
    ∧ (handleSendTxMessageSync brokenStoreApp (.ok plainRequest) []).map
          (fun out => out.trace.drop 6)
        = some [Step.render { Email := "new@y.com" } sampleTemplate,
                Step.push "email"
                  { From := "u@a.com", To := ["new@y.com"], Subject := "Welcome", Body := "Hello",
                    Subscriber := { Email := "new@y.com" } } none] := by
  decide

/-! ## Addresses with several `@`, and with none -/

/-- C11 at the failing input: for `a@b@c.com`, the parsed form of a mailbox
with the quoted local part `a@b` at the domain `c.com`, the piece compared
with the allow-list is `b`, the text between the first two `@`; a server that
allows the domain `b` only admits the address, and a server that allows the
domain `c.com` only rejects it. -/
theorem allowsFromAddress_second_piece :
    stringsSplit "a@b@c.com" '@' = ["a", "b", "c.com"]
    ∧ Server.allowsFromAddress { AllowedFromAddresses := ["b"] } "a@b@c.com" = some true
    ∧ Server.allowsFromAddress { AllowedFromAddresses := ["c.com"] } "a@b@c.com" = some false
    ∧ applicableServers (fun _ => some { Name := "", Address := "a@b@c.com" })
        [{ AllowedFromAddresses := ["b"] }] "a@b@c.com"
      = some ([{ AllowedFromAddresses := ["b"] }], none) := by
  decide

/-- C15 fails as stated: with a non-empty allow-list, an address string
without `@` (and the empty string) makes the index expression of
`allowsFromAddress` go out of range. -/
theorem allowsFromAddress_panics_without_at :
    Server.allowsFromAddress serverA "not-an-email" = none
    ∧ Server.allowsFromAddress serverA "" = none := by
  decide

/-- C15, as the code has it: `allowsFromAddress` returns `true` for every
string when the allow-list is empty, and returns a boolean for every server
when the address string holds an `@`; with a non-empty allow-list and a string
without `@` the index expression is out of range. -/
theorem allowsFromAddress_total_on_addresses (s : Server) (a : String) :
    (s.AllowedFromAddresses = [] → s.allowsFromAddress a = some true)
    ∧ ('@' ∈ a.data → ∃ b, s.allowsFromAddress a = some b)
    ∧ (s.AllowedFromAddresses ≠ [] → '@' ∉ a.data → s.allowsFromAddress a = none) := by
  refine ⟨?_, allowsFromAddress_isSome s a, ?_⟩
  · intro he
    simp [Server.allowsFromAddress, he]
  · intro hne hat
    have hlen : ¬ s.AllowedFromAddresses.length = 0 := by
      simpa [List.length_eq_zero] using hne
    unfold Server.allowsFromAddress
    rw [if_neg hlen]
    simp [stringsSplit, splitChars_not_mem _ _ hat]

/-- C15 at concrete inputs: an empty allow-list admits a string without `@`,
and an address with an `@` gets a boolean from server A. -/
theorem allowsFromAddress_total_on_addresses_witness :
    Server.allowsFromAddress serverB "not-an-email" = some true
    ∧ ∃ b, Server.allowsFromAddress serverA "u@c.com" = some b :=
  ⟨(allowsFromAddress_total_on_addresses serverB "not-an-email").1 (by decide),
   (allowsFromAddress_total_on_addresses serverA "u@c.com").2.1 (by decide)⟩

/-! ## Frame of the validation -/

theorem validateTxMessageSync_fst (m : TxMessage) (app : App)
    (hok : (validateTxMessageSync m app).2 = none) :
    (validateTxMessageSync m app).1
      = { m with
          SubscriberEmail :=
            if m.SubscriberEmail ≠ "" then (app.SanitizeEmail m.SubscriberEmail).1
            else m.SubscriberEmail,
          FromEmail := if m.FromEmail = "" then app.FromEmail else m.FromEmail,
          Messenger := if m.Messenger = "" then "email" else m.Messenger } := by
  unfold validateTxMessageSync at hok ⊢
  obtain ⟨email, sid, tid, data, sender, hdrs, ctype, msgr, subj, body⟩ := m
  dsimp only at hok ⊢
  rcases hs : app.SanitizeEmail email with ⟨em, oerr⟩
  rw [hs] at hok
  by_cases ha : email = "" ∧ sid = 0
  · simp [ha] at hok
  · rw [if_neg ha] at hok ⊢
    by_cases he : email = "" <;> by_cases hf : sender = "" <;>
      by_cases hm : msgr = "" <;> by_cases hh : app.HasMessenger msgr = true <;>
      cases oerr <;> simp_all [emailMsgr]

theorem validateTxMessage_fst (m : TxMessage) (app : App)
    (hok : (validateTxMessage m app).2 = none) :
    (validateTxMessage m app).1
      = { m with
          SubscriberEmail :=
            if m.SubscriberEmail ≠ "" then (app.SanitizeEmail m.SubscriberEmail).1
            else m.SubscriberEmail,
          FromEmail := if m.FromEmail = "" then app.FromEmail else m.FromEmail,
          Messenger := if m.Messenger = "" then "email" else m.Messenger } := by
  unfold validateTxMessage at hok ⊢
  obtain ⟨email, sid, tid, data, sender, hdrs, ctype, msgr, subj, body⟩ := m
  dsimp only at hok ⊢
  rcases hs : app.SanitizeEmail email with ⟨em, oerr⟩
  rw [hs] at hok
  by_cases ha : email = "" ∧ sid = 0
  · simp [ha] at hok
  · rw [if_neg ha] at hok ⊢
    by_cases he : email = "" <;> by_cases hf : sender = "" <;>
      by_cases hm : msgr = "" <;> by_cases hh : app.HasMessenger msgr = true <;>
      cases oerr <;> simp_all [emailMsgr]

/-- C12: when validation succeeds, the returned request is the input with at
most three fields rewritten: `SubscriberEmail` is the output of the sanitizer
when the input email is not empty, `FromEmail` is the configured default when
the input is empty, and `Messenger` is `email` when the input is empty. Every
other field is that of the input. This holds for both validators. -/
theorem validate_frame (m : TxMessage) (app : App) :
    ((validateTxMessageSync m app).2 = none →
      (validateTxMessageSync m app).1
        = { m with
            SubscriberEmail :=
              if m.SubscriberEmail ≠ "" then (app.SanitizeEmail m.SubscriberEmail).1
              else m.SubscriberEmail,
            FromEmail := if m.FromEmail = "" then app.FromEmail else m.FromEmail,
            Messenger := if m.Messenger = "" then "email" else m.Messenger })
    ∧ ((validateTxMessage m app).2 = none →
      (validateTxMessage m app).1
        = { m with
            SubscriberEmail :=
              if m.SubscriberEmail ≠ "" then (app.SanitizeEmail m.SubscriberEmail).1
              else m.SubscriberEmail,
            FromEmail := if m.FromEmail = "" then app.FromEmail else m.FromEmail,
            Messenger := if m.Messenger = "" then "email" else m.Messenger }) :=
  ⟨validateTxMessageSync_fst m app, validateTxMessage_fst m app⟩

/-- C12 at a concrete input: a request without sender and messenger gets the
default sender and the messenger `email`, and keeps its other fields. -/
theorem validate_frame_witness :
    (validateTxMessageSync { SubscriberEmail := "x@y.com", TemplateID := 3, Subject := "s" }
        sampleApp).2 = none
    ∧ (validateTxMessageSync { SubscriberEmail := "x@y.com", TemplateID := 3, Subject := "s" }
        sampleApp).1
      = { SubscriberEmail := "x@y.com", TemplateID := 3, Subject := "s",
          FromEmail := "noreply@a.com", Messenger := "email" } :=
  ⟨by decide,
   (validate_frame { SubscriberEmail := "x@y.com", TemplateID := 3, Subject := "s" }
      sampleApp).1 (by decide)⟩

/-- C20: `validateTxMessage` and `validateTxMessageSync` return the same
request and the same error for every request and every application state, so
they accept the same requests and apply the same defaults. -/
theorem validate_same (m : TxMessage) (app : App) :
    validateTxMessage m app = validateTxMessageSync m app
    ∧ ((validateTxMessage m app).2 = none ↔ (validateTxMessageSync m app).2 = none) := by
  have h : validateTxMessage m app = validateTxMessageSync m app := by
    unfold validateTxMessage validateTxMessageSync
    rfl
  exact ⟨h, by rw [h]⟩

/-! ## Construction of the emailer -/

theorem resolveTLS_auth (s : Server) : (resolveTLS s).Opt.Auth = s.Opt.Auth := by
  unfold resolveTLS
  by_cases h1 : s.TLSType = "none"
  · simp [h1]
  · by_cases h2 : s.TLSType = "TLS" <;> simp [h1, h2]

theorem resolveTLS_fields (s : Server) :
    (s.TLSType = "none" →
      (resolveTLS s).Opt.TLSConfig = s.Opt.TLSConfig ∧ (resolveTLS s).Opt.SSL = s.Opt.SSL)
    ∧ (s.TLSType ≠ "none" →
      (resolveTLS s).Opt.TLSConfig
        = some { InsecureSkipVerify := s.TLSSkipVerify,
                 ServerName := if s.TLSSkipVerify then "" else s.Opt.Host })
    ∧ (s.TLSType = "TLS" → (resolveTLS s).Opt.SSL = true)
    ∧ (s.TLSType ≠ "TLS" → (resolveTLS s).Opt.SSL = s.Opt.SSL) := by
  unfold resolveTLS
  by_cases h1 : s.TLSType = "none"
  · have h2 : s.TLSType ≠ "TLS" := by rw [h1]; decide
    simp [h1]
  · by_cases h2 : s.TLSType = "TLS" <;> by_cases h3 : s.TLSSkipVerify = true <;>
      simp [h1, h2, h3]

theorem resolveAuth_cases (s : Server) :
    (s.AuthProtocol = "cram" →
      resolveAuth s = .ok (some (SMTPAuth.cramMD5 s.Username s.Password)))
    ∧ (s.AuthProtocol = "plain" →
      resolveAuth s = .ok (some (SMTPAuth.plain "" s.Username s.Password s.Opt.Host)))
    ∧ (s.AuthProtocol = "login" →
      resolveAuth s = .ok (some (SMTPAuth.login s.Username s.Password)))
    ∧ (s.AuthProtocol = "" ∨ s.AuthProtocol = "none" → resolveAuth s = .ok none)
    ∧ (s.AuthProtocol ∉ ["cram", "plain", "login", "", "none"] →
      resolveAuth s = .error (unknownAuthError s.AuthProtocol)) := by
  unfold resolveAuth
  refine ⟨?_, ?_, ?_, ?_, ?_⟩
  · intro h
    simp [h]
  · intro h
    simp [h]
  · intro h
    simp [h]
  · intro h
    rcases h with h | h <;> simp [h]
  · intro h
    simp only [List.mem_cons, List.mem_singleton, not_or] at h
    simp [h.1, h.2.1, h.2.2.1, h.2.2.2.1, h.2.2.2.2]

theorem configureServer_ok_iff (s : Server) :
    (∃ s1, configureServer s = .ok s1)
      ↔ s.AuthProtocol ∈ ["cram", "plain", "login", "", "none"] := by
  obtain ⟨h1, h2, h3, h4, h5⟩ := resolveAuth_cases s
  unfold configureServer
  constructor
  · rintro ⟨s1, hs⟩
    by_contra hn
    rw [h5 hn] at hs
    exact absurd hs (by simp)
  · intro hmem
    simp only [List.mem_cons, List.mem_singleton] at hmem
    rcases hmem with h | h | h | h | h | h
    · rw [h1 h]; exact ⟨_, rfl⟩
    · rw [h2 h]; exact ⟨_, rfl⟩
    · rw [h3 h]; exact ⟨_, rfl⟩
    · rw [h4 (Or.inl h)]; exact ⟨_, rfl⟩
    · rw [h4 (Or.inr h)]; exact ⟨_, rfl⟩
    · simp at h

theorem configureServer_fields (s s1 : Server) (h : configureServer s = .ok s1) :
    ((s.AuthProtocol = "cram" → s1.Opt.Auth = some (SMTPAuth.cramMD5 s.Username s.Password))
      ∧ (s.AuthProtocol = "plain" →
          s1.Opt.Auth = some (SMTPAuth.plain "" s.Username s.Password s.Opt.Host))
      ∧ (s.AuthProtocol = "login" → s1.Opt.Auth = some (SMTPAuth.login s.Username s.Password))
      ∧ (s.AuthProtocol = "" ∨ s.AuthProtocol = "none" → s1.Opt.Auth = none))
    ∧ ((s.TLSType = "none" → s1.Opt.TLSConfig = s.Opt.TLSConfig ∧ s1.Opt.SSL = s.Opt.SSL)
      ∧ (s.TLSType ≠ "none" →
          s1.Opt.TLSConfig
            = some { InsecureSkipVerify := s.TLSSkipVerify,
                     ServerName := if s.TLSSkipVerify then "" else s.Opt.Host })
      ∧ (s.TLSType = "TLS" → s1.Opt.SSL = true)
      ∧ (s.TLSType ≠ "TLS" → s1.Opt.SSL = s.Opt.SSL)) := by
  obtain ⟨h1, h2, h3, h4, -⟩ := resolveAuth_cases s
  unfold configureServer at h
  cases ha : resolveAuth s with
  | error err => rw [ha] at h; exact absurd h (by simp)
  | ok auth =>
    rw [ha] at h
    have hs1 : s1 = resolveTLS { s with Opt := { s.Opt with Auth := auth } } := by
      simpa using h.symm
    have hauth : s1.Opt.Auth = auth := by
      rw [hs1, resolveTLS_auth]
    constructor
    · rw [hauth]
      refine ⟨fun h => ?_, fun h => ?_, fun h => ?_, fun h => ?_⟩
      · have := h1 h; rw [ha] at this; simpa using this
      · have := h2 h; rw [ha] at this; simpa using this
      · have := h3 h; rw [ha] at this; simpa using this
      · have := h4 h; rw [ha] at this; simpa using this
    · rw [hs1]
      exact resolveTLS_fields { s with Opt := { s.Opt with Auth := auth } }

theorem newLoop_some (NewPool : Opt → Option GoError) (servers acc : List Server)
    (e : Emailer) (h : (newLoop NewPool servers acc).1 = some e) :
    (newLoop NewPool servers acc).2 = none
    ∧ ∃ cfg, e.servers = acc ++ cfg
      ∧ List.Forall₂ (fun s s1 => configureServer s = .ok s1) servers cfg := by
  induction servers generalizing acc with
  | nil =>
    simp only [newLoop, Option.some.injEq] at h
    exact ⟨rfl, [], by simp [← h], List.Forall₂.nil⟩
  | cons srv rest ih =>
    unfold newLoop at h ⊢
    cases hc : configureServer srv with
    | error err => rw [hc] at h; exact absurd h (by simp)
    | ok s =>
      rw [hc] at h
      dsimp only at h ⊢
      cases hp : NewPool s.Opt with
      | some err => rw [hp] at h; exact absurd h (by simp)
      | none =>
        rw [hp] at h
        dsimp only at h ⊢
        obtain ⟨h2, cfg, hcfg, hall⟩ := ih (acc ++ [s]) h
        exact ⟨h2, s :: cfg, by simp [hcfg], List.Forall₂.cons hc hall⟩

theorem newLoop_spec (NewPool : Opt → Option GoError) (hpool : ∀ o, NewPool o = none)
    (servers acc : List Server) :
    (∃ e, newLoop NewPool servers acc = (some e, none))
    ∨ (∃ s ∈ servers, ∃ err, configureServer s = .error err
        ∧ newLoop NewPool servers acc = (none, some err)) := by
  induction servers generalizing acc with
  | nil => exact Or.inl ⟨_, rfl⟩
  | cons srv rest ih =>
    unfold newLoop
    cases hc : configureServer srv with
    | error err => exact Or.inr ⟨srv, by simp, err, hc, rfl⟩
    | ok s =>
      dsimp only
      rw [hpool s.Opt]
      rcases ih (acc ++ [s]) with h | ⟨x, hx, err, hxe, hnew⟩
      · exact Or.inl h
      · exact Or.inr ⟨x, by simp [hx], err, hxe, hnew⟩

theorem forall₂_exists_left {α β : Type} {R : α → β → Prop} {l1 : List α} {l2 : List β}
    (h : List.Forall₂ R l1 l2) : ∀ a ∈ l1, ∃ b, R a b := by
  induction h with
  | nil => intro a ha; simp at ha
  | cons hab _ ih =>
    intro a ha
    rcases List.mem_cons.mp ha with h1 | h1
    · subst h1; exact ⟨_, hab⟩
    · exact ih a h1

/-- C13, as the code has it: with pools that can be created, `New` succeeds
exactly when every server has one of the auth protocols `cram`, `plain`,
`login`, the empty string or `none`; they give CRAM-MD5, PLAIN, LOGIN and, for
the last two, no authentication. Otherwise `New` returns no emailer and the
unknown-auth-type error of a server with another protocol string. -/
theorem new_auth_resolution (NewPool : Opt → Option GoError) (hpool : ∀ o, NewPool o = none)
    (servers : List Server) :
    ((New NewPool servers).2 = none
        ↔ ∀ s ∈ servers, s.AuthProtocol ∈ ["cram", "plain", "login", "", "none"])
    ∧ (∀ e, (New NewPool servers).1 = some e →
        (New NewPool servers).2 = none
        ∧ List.Forall₂ (fun s s1 =>
            (s.AuthProtocol = "cram" →
              s1.Opt.Auth = some (SMTPAuth.cramMD5 s.Username s.Password))
            ∧ (s.AuthProtocol = "plain" →
              s1.Opt.Auth = some (SMTPAuth.plain "" s.Username s.Password s.Opt.Host))
            ∧ (s.AuthProtocol = "login" →
              s1.Opt.Auth = some (SMTPAuth.login s.Username s.Password))
            ∧ (s.AuthProtocol = "" ∨ s.AuthProtocol = "none" → s1.Opt.Auth = none))
          servers e.servers)
    ∧ ((New NewPool servers).2 ≠ none →
        (New NewPool servers).1 = none
        ∧ ∃ s ∈ servers, s.AuthProtocol ∉ ["cram", "plain", "login", "", "none"]
          ∧ (New NewPool servers).2 = some (unknownAuthError s.AuthProtocol)) := by
  unfold New
  have hfail : ∀ s err, configureServer s = .error err →
      s.AuthProtocol ∉ ["cram", "plain", "login", "", "none"]
      ∧ err = unknownAuthError s.AuthProtocol := by
    intro s err hs
    have hn : s.AuthProtocol ∉ ["cram", "plain", "login", "", "none"] := by
      intro hmem
      obtain ⟨s1, hs1⟩ := (configureServer_ok_iff s).mpr hmem
      rw [hs1] at hs
      exact absurd hs (by simp)
    refine ⟨hn, ?_⟩
    have hr := (resolveAuth_cases s).2.2.2.2 hn
    unfold configureServer at hs
    rw [hr] at hs
    simpa using hs.symm
  refine ⟨?_, ?_, ?_⟩
  · constructor
    · intro h2 s hs
      rcases newLoop_spec NewPool hpool servers [] with ⟨e, he⟩ | ⟨x, _, err, _, hnew⟩
      · obtain ⟨-, cfg, -, hall⟩ := newLoop_some NewPool servers [] e (by rw [he])
        exact (configureServer_ok_iff s).mp (forall₂_exists_left hall s hs)
      · rw [hnew] at h2
        exact absurd h2 (by simp)
    · intro hall
      rcases newLoop_spec NewPool hpool servers [] with ⟨e, he⟩ | ⟨x, hx, err, hxe, _⟩
      · rw [he]
      · exact absurd (hall x hx) (hfail x err hxe).1
  · intro e he
    obtain ⟨h2, cfg, hcfg, hall⟩ := newLoop_some NewPool servers [] e he
    refine ⟨h2, ?_⟩
    have hcfg1 : e.servers = cfg := by simpa using hcfg
    rw [hcfg1]
    exact List.Forall₂.imp (fun a b hs => (configureServer_fields a b hs).1) hall
  · intro hne
    rcases newLoop_spec NewPool hpool servers [] with ⟨e, he⟩ | ⟨x, hx, err, hxe, hnew⟩
    · rw [he] at hne
      exact absurd rfl hne
    · rw [hnew]
      obtain ⟨hn, herr⟩ := hfail x err hxe
      exact ⟨rfl, x, hx, hn, by rw [herr]⟩

/-- C13 at a concrete input: `New` accepts the protocol `cram` and installs
CRAM-MD5. -/
theorem new_auth_resolution_witness :
    (∀ o, (fun _ : Opt => (none : Option GoError)) o = none)
    ∧ (New (fun _ => none) [tlsServer]).1 = some { servers := [tlsServerConfigured] }
    ∧ (tlsServer.AuthProtocol = "cram" →
        tlsServerConfigured.Opt.Auth
          = some (SMTPAuth.cramMD5 tlsServer.Username tlsServer.Password)) :=
  ⟨fun _ => rfl, by decide,
   (List.forall₂_cons.mp
      ((new_auth_resolution (fun _ => none) (fun _ => rfl) [tlsServer]).2.1
        { servers := [tlsServerConfigured] } (by decide)).2).1.1⟩

/-- C13 fails as stated: `New` rejects the protocol string `cram-md5` with the
unknown-auth-type error, and accepts `cram` and the empty string. -/
theorem new_rejects_cram_md5 :
    New (fun _ => none) [{ AuthProtocol := "cram-md5" }]
      = (none, some (unknownAuthError "cram-md5"))
    ∧ New (fun _ => none) [tlsServer] = (some { servers := [tlsServerConfigured] }, none)
    ∧ New (fun _ => none) [{ AuthProtocol := "" }]
      = (some { servers := [{ AuthProtocol := "", Opt := { TLSConfig := some {} } }] }, none) := by
  decide

/-- C14, as the code has it: for every server of an emailer that `New`
returns, TLS type `none` leaves the TLS configuration and the SSL option as
they were configured; any other TLS type gives a TLS configuration in which
verification is skipped exactly when `TLSSkipVerify` is set, and whose server
name is the host when it is not set; the SSL option is switched on for the TLS
type `TLS` and is left as configured for every other type. -/
theorem new_tls_policy (NewPool : Opt → Option GoError) (servers : List Server) (e : Emailer)
    (hnew : (New NewPool servers).1 = some e) :
    List.Forall₂ (fun s s1 =>
        (s.TLSType = "none" → s1.Opt.TLSConfig = s.Opt.TLSConfig ∧ s1.Opt.SSL = s.Opt.SSL)
        ∧ (s.TLSType ≠ "none" →
            s1.Opt.TLSConfig
              = some { InsecureSkipVerify := s.TLSSkipVerify,
                       ServerName := if s.TLSSkipVerify then "" else s.Opt.Host })
        ∧ (s.TLSType = "TLS" → s1.Opt.SSL = true)
        ∧ (s.TLSType ≠ "TLS" → s1.Opt.SSL = s.Opt.SSL))
      servers e.servers := by
  obtain ⟨-, cfg, hcfg, hall⟩ := newLoop_some NewPool servers [] e hnew
  have hcfg1 : e.servers = cfg := by simpa using hcfg
  rw [hcfg1]
  exact List.Forall₂.imp (fun a b hs => (configureServer_fields a b hs).2) hall

/-- C14 at a concrete input: the TLS type `TLS` switches the SSL option on. -/
theorem new_tls_policy_witness :
    (New (fun _ => none) [tlsServer]).1 = some { servers := [tlsServerConfigured] }
    ∧ (tlsServer.TLSType = "TLS" → tlsServerConfigured.Opt.SSL = true) :=
  ⟨by decide,
   (List.forall₂_cons.mp
      (new_tls_policy (fun _ => none) [tlsServer] { servers := [tlsServerConfigured] }
        (by decide))).1.2.2.1⟩

/-- C14 fails as stated: with the TLS type `tls` in lower case `New` builds a
TLS configuration and leaves the SSL option off. -/
theorem new_lower_case_tls_no_ssl :
    New (fun _ => none) [lowerCaseTLSServer]
      = (some { servers :=
          [{ lowerCaseTLSServer with
             Opt := { Host := "smtp.a.com", Port := 465, SSL := false,
                      TLSConfig := some { ServerName := "smtp.a.com" } } }] }, none)
    ∧ lowerCaseTLSServer.TLSType = "tls" := by
  decide

/-! ## Shape of a handler run -/

theorem sync_shape (app : App) (m0 m : TxMessage) (cache : TplCache) (out : Outcome)
    (hv : validateTxMessageSync m0 app = (m, none))
    (h : handleSendTxMessageSync app (.ok m0) cache = some out) :
    out.cache = (resolveTemplate app cache m.TemplateID).2.1
    ∧ ∃ rest, out.trace = (resolveTemplate app cache m.TemplateID).2.2 ++ rest
      ∧ (∀ s ∈ rest, (∀ i b, s ≠ Step.getTemplate i b) ∧ (∀ t, s ≠ Step.compile t)
          ∧ (∀ i t, s ≠ Step.cacheTpl i t))
      ∧ (∀ err, (resolveTemplate app cache m.TemplateID).1 = .error err →
          out.reply = Reply.fail err ∧ rest = [])
      ∧ (∀ tpl, (resolveTemplate app cache m.TemplateID).1 = .ok tpl →
          ∀ sub t, Step.render sub t ∈ rest → t = tpl) := by
  unfold handleSendTxMessageSync at h
  dsimp only at h
  rw [hv] at h
  dsimp only at h
  rcases ht : resolveTemplate app cache m.TemplateID with ⟨_ | tpl, cache1, tr⟩
  · rw [ht] at h
    simp only [Option.some.injEq] at h
    subst h
    refine ⟨rfl, [], by simp, by simp, ?_, ?_⟩
    · intro err he
      simp only [Except.error.injEq] at he
      subst he
      exact ⟨rfl, rfl⟩
    · intro tpl he
      simp at he
  · rw [ht] at h
    dsimp only at h
    have fin : ∀ (reply : Reply) (rest trace : List Step),
        out = ⟨reply, cache1, trace⟩ → trace = tr ++ rest →
        (∀ s ∈ rest, (∀ i b, s ≠ Step.getTemplate i b) ∧ (∀ t, s ≠ Step.compile t)
          ∧ (∀ i t, s ≠ Step.cacheTpl i t)) →
        (∀ sub t, Step.render sub t ∈ rest → t = tpl) →
        out.cache = cache1
        ∧ ∃ rest, out.trace = tr ++ rest
          ∧ (∀ s ∈ rest, (∀ i b, s ≠ Step.getTemplate i b) ∧ (∀ t, s ≠ Step.compile t)
              ∧ (∀ i t, s ≠ Step.cacheTpl i t))
          ∧ (∀ err, (Except.ok tpl : Except GoError Template) = .error err →
              out.reply = Reply.fail err ∧ rest = [])
          ∧ (∀ tpl1, (Except.ok tpl : Except GoError Template) = .ok tpl1 →
              ∀ sub t, Step.render sub t ∈ rest → t = tpl1) := by
      intro reply rest trace hout htrace h1 h2
      subst hout
      refine ⟨rfl, rest, htrace, h1, ?_, ?_⟩
      · intro err he
        simp at he
      · intro tpl1 he
        simp only [Except.ok.injEq] at he
        subst he
        exact h2
    cases hs : resolveSubscriber app m with
    | error serr =>
      rw [hs] at h
      simp only [Option.some.injEq] at h
      refine fin _ _ _ h.symm rfl ?_ ?_
      · simp
      · simp
    | ok sub =>
      rw [hs] at h
      dsimp only at h
      rcases hr : app.Render m sub tpl with ⟨m1, _ | rerr⟩
      · rw [hr] at h
        dsimp only at h
        cases hm : app.messengers m1.Messenger with
        | none => rw [hm] at h; exact absurd h (by simp)
        | some push =>
          rw [hm] at h
          dsimp only at h
          split at h
          · exact absurd h (by simp)
          · simp only [Option.some.injEq] at h
            apply fin _ _ _ h.symm
            · simp only [List.append_assoc]
              rfl
            · simp
            · simp
          · simp only [Option.some.injEq] at h
            apply fin _ _ _ h.symm
            · simp only [List.append_assoc]
              rfl
            · simp
            · simp
      · rw [hr] at h
        simp only [Option.some.injEq] at h
        apply fin _ _ _ h.symm
        · simp only [List.append_assoc]
          rfl
        · simp
        · simp

theorem async_shape (app : App) (m0 m : TxMessage) (cache : TplCache) (out : Outcome)
    (hv : validateTxMessage m0 app = (m, none))
    (h : handleSendTxMessage app (.ok m0) cache = some out) :
    out.cache = (resolveTemplate app cache m.TemplateID).2.1
    ∧ ∃ rest, out.trace = (resolveTemplate app cache m.TemplateID).2.2 ++ rest
      ∧ (∀ s ∈ rest, (∀ i b, s ≠ Step.getTemplate i b) ∧ (∀ t, s ≠ Step.compile t)
          ∧ (∀ i t, s ≠ Step.cacheTpl i t))
      ∧ (∀ err, (resolveTemplate app cache m.TemplateID).1 = .error err →
          out.reply = Reply.fail err ∧ rest = [])
      ∧ (∀ tpl, (resolveTemplate app cache m.TemplateID).1 = .ok tpl →
          ∀ sub t, Step.render sub t ∈ rest → t = tpl) := by
  unfold handleSendTxMessage at h
  dsimp only at h
  rw [hv] at h
  dsimp only at h
  rcases ht : resolveTemplate app cache m.TemplateID with ⟨_ | tpl, cache1, tr⟩
  · rw [ht] at h
    simp only [Option.some.injEq] at h
    subst h
    refine ⟨rfl, [], by simp, by simp, ?_, ?_⟩
    · intro err he
      simp only [Except.error.injEq] at he
      subst he
      exact ⟨rfl, rfl⟩
    · intro tpl he
      simp at he
  · rw [ht] at h
    dsimp only at h
    have fin : ∀ (reply : Reply) (rest trace : List Step),
        out = ⟨reply, cache1, trace⟩ → trace = tr ++ rest →
        (∀ s ∈ rest, (∀ i b, s ≠ Step.getTemplate i b) ∧ (∀ t, s ≠ Step.compile t)
          ∧ (∀ i t, s ≠ Step.cacheTpl i t)) →
        (∀ sub t, Step.render sub t ∈ rest → t = tpl) →
        out.cache = cache1
        ∧ ∃ rest, out.trace = tr ++ rest
          ∧ (∀ s ∈ rest, (∀ i b, s ≠ Step.getTemplate i b) ∧ (∀ t, s ≠ Step.compile t)
              ∧ (∀ i t, s ≠ Step.cacheTpl i t))
          ∧ (∀ err, (Except.ok tpl : Except GoError Template) = .error err →
              out.reply = Reply.fail err ∧ rest = [])
          ∧ (∀ tpl1, (Except.ok tpl : Except GoError Template) = .ok tpl1 →
              ∀ sub t, Step.render sub t ∈ rest → t = tpl1) := by
      intro reply rest trace hout htrace h1 h2
      subst hout
      refine ⟨rfl, rest, htrace, h1, ?_, ?_⟩
      · intro err he
        simp at he
      · intro tpl1 he
        simp only [Except.ok.injEq] at he
        subst he
        exact h2
    cases hs : resolveSubscriber app m with
    | error serr =>
      rw [hs] at h
      simp only [Option.some.injEq] at h
      refine fin _ _ _ h.symm rfl ?_ ?_
      · simp
      · simp
    | ok sub =>
      rw [hs] at h
      dsimp only at h
      rcases hr : app.Render m sub tpl with ⟨m1, _ | rerr⟩
      · rw [hr] at h
        dsimp only at h
        split at h
        · split_ifs at h
          · simp only [Option.some.injEq] at h
            apply fin _ _ _ h.symm
            · simp only [List.append_assoc]
              rfl
            · simp
            · simp
          · simp only [Option.some.injEq] at h
            apply fin _ _ _ h.symm
            · simp only [List.append_assoc]
              rfl
            · simp
            · simp
        · simp only [Option.some.injEq] at h
          apply fin _ _ _ h.symm
          · simp only [List.append_assoc]
            rfl
          · simp
          · simp
      · rw [hr] at h
        simp only [Option.some.injEq] at h
        apply fin _ _ _ h.symm
        · simp only [List.append_assoc]
          rfl
        · simp
        · simp

/-! ## Validation comes first -/

/-- C17: when validation fails, each handler returns the validation error,
leaves the cache as it was and has made no call at all: no template fetch, no
compile, no cache write, no subscriber lookup, no render, no push. Hence a
handler run with any such call is a run whose validation succeeded. -/
theorem handlers_stop_at_validation (app : App) (m0 : TxMessage) (cache : TplCache) :
    (∀ err, (validateTxMessageSync m0 app).2 = some err →
      handleSendTxMessageSync app (.ok m0) cache = some ⟨Reply.fail err, cache, []⟩
      ∧ handleSendTxMessage app (.ok m0) cache = some ⟨Reply.fail err, cache, []⟩)
    ∧ (∀ out, (handleSendTxMessageSync app (.ok m0) cache = some out
          ∨ handleSendTxMessage app (.ok m0) cache = some out) →
        out.trace ≠ [] → (validateTxMessageSync m0 app).2 = none) := by
  have hsame : validateTxMessage m0 app = validateTxMessageSync m0 app := by
    unfold validateTxMessage validateTxMessageSync
    rfl
  have hstop : ∀ err, (validateTxMessageSync m0 app).2 = some err →
      handleSendTxMessageSync app (.ok m0) cache = some ⟨Reply.fail err, cache, []⟩
      ∧ handleSendTxMessage app (.ok m0) cache = some ⟨Reply.fail err, cache, []⟩ := by
    intro err hv
    unfold handleSendTxMessageSync handleSendTxMessage
    dsimp only
    rw [hsame]
    rcases hr : validateTxMessageSync m0 app with ⟨m, verr⟩
    rw [hr] at hv
    dsimp only at hv
    subst hv
    exact ⟨rfl, rfl⟩
  refine ⟨hstop, ?_⟩
  intro out hrun hne
  cases hv : (validateTxMessageSync m0 app).2 with
  | none => rfl
  | some err =>
    obtain ⟨h1, h2⟩ := hstop err hv
    rcases hrun with h | h
    · rw [h1] at h
      have := Option.some.inj h
      rw [← this] at hne
      exact absurd rfl hne
    · rw [h2] at h
      have := Option.some.inj h
      rw [← this] at hne
      exact absurd rfl hne

/-- C17 at scenario B of the specification: the messenger `sms` is not
registered, and both handlers answer with the validation error at once. -/
theorem handlers_stop_at_validation_witness :
    (validateTxMessageSync { plainRequest with Messenger := "sms" } sampleApp).2
        = some (GoError.http 400 "campaigns.fieldInvalidMessenger name sms")
    ∧ handleSendTxMessageSync sampleApp (.ok { plainRequest with Messenger := "sms" }) []
        = some ⟨Reply.fail (GoError.http 400 "campaigns.fieldInvalidMessenger name sms"), [], []⟩
    ∧ handleSendTxMessage sampleApp (.ok { plainRequest with Messenger := "sms" }) []
        = some ⟨Reply.fail (GoError.http 400 "campaigns.fieldInvalidMessenger name sms"), [], []⟩ :=
  ⟨by decide,
   (handlers_stop_at_validation sampleApp { plainRequest with Messenger := "sms" } []).1
     (GoError.http 400 "campaigns.fieldInvalidMessenger name sms") (by decide)⟩

/-! ## Template resolution and the cache -/

theorem resolveTemplate_fresh (app : App) (cache : TplCache) (id : Int) (dbTpl tpl : Template)
    (hdb : app.GetTemplate id true = (dbTpl, none)) (hc : mapGet cache id = some tpl)
    (hu : tpl.UpdatedAt = dbTpl.UpdatedAt) :
    resolveTemplate app cache id = (.ok tpl, cache, [Step.getTemplate id true, Step.getTpl id]) := by
  unfold resolveTemplate
  rw [hdb]
  dsimp only
  rw [hc]
  simp [hu]

theorem resolveTemplate_stale (app : App) (cache : TplCache) (id : Int) (dbTpl : Template)
    (hdb : app.GetTemplate id true = (dbTpl, none))
    (hs : mapGet cache id = none
      ∨ ∃ tpl, mapGet cache id = some tpl ∧ tpl.UpdatedAt ≠ dbTpl.UpdatedAt) :
    resolveTemplate app cache id
      = ((refreshTemplate app cache id).1, (refreshTemplate app cache id).2.1,
          [Step.getTemplate id true, Step.getTpl id] ++ (refreshTemplate app cache id).2.2) := by
  unfold resolveTemplate
  rw [hdb]
  dsimp only
  rcases hs with hs | ⟨tpl, hs, hne⟩
  · rw [hs]
  · rw [hs]
    simp [hne]

theorem refreshTemplate_fetch_failed (app : App) (cache : TplCache) (id : Int)
    (full : Template) (ferr : GoError) (hf : app.GetTemplate id false = (full, some ferr)) :
    refreshTemplate app cache id = (.error ferr, cache, [Step.getTemplate id false]) := by
  unfold refreshTemplate
  rw [hf]

theorem refreshTemplate_compile_failed (app : App) (cache : TplCache) (id : Int)
    (full c : Template) (cerr : GoError) (hf : app.GetTemplate id false = (full, none))
    (hc : app.Compile full = (c, some cerr)) :
    refreshTemplate app cache id
      = (.error (GoError.http 400 cerr.Error), cache,
          [Step.getTemplate id false, Step.compile full]) := by
  unfold refreshTemplate
  rw [hf]
  dsimp only
  rw [hc]

theorem refreshTemplate_compiled (app : App) (cache : TplCache) (id : Int)
    (full c : Template) (hf : app.GetTemplate id false = (full, none))
    (hc : app.Compile full = (c, none)) :
    refreshTemplate app cache id
      = (.ok c, mapSet cache id c,
          [Step.getTemplate id false, Step.compile full, Step.cacheTpl id c]) := by
  unfold refreshTemplate
  rw [hf]
  dsimp only
  rw [hc]

theorem resolution_facts (app : App) (cache : TplCache) (id : Int) (out : Outcome)
    (dbTpl : Template)
    (hshape : out.cache = (resolveTemplate app cache id).2.1
      ∧ ∃ rest, out.trace = (resolveTemplate app cache id).2.2 ++ rest
        ∧ (∀ s ∈ rest, (∀ i b, s ≠ Step.getTemplate i b) ∧ (∀ t, s ≠ Step.compile t)
            ∧ (∀ i t, s ≠ Step.cacheTpl i t))
        ∧ (∀ err, (resolveTemplate app cache id).1 = .error err →
            out.reply = Reply.fail err ∧ rest = [])
        ∧ (∀ tpl, (resolveTemplate app cache id).1 = .ok tpl →
            ∀ sub t, Step.render sub t ∈ rest → t = tpl))
    (hdb : app.GetTemplate id true = (dbTpl, none)) :
    (∀ tpl, mapGet cache id = some tpl → tpl.UpdatedAt = dbTpl.UpdatedAt →
        Step.getTemplate id false ∉ out.trace
        ∧ (∀ t, Step.compile t ∉ out.trace)
        ∧ (∀ i t, Step.cacheTpl i t ∉ out.trace)
        ∧ out.cache = cache
        ∧ (∀ sub t, Step.render sub t ∈ out.trace → t = tpl))
    ∧ ((mapGet cache id = none
          ∨ ∃ tpl, mapGet cache id = some tpl ∧ tpl.UpdatedAt ≠ dbTpl.UpdatedAt) →
        Step.getTemplate id false ∈ out.trace
        ∧ (∀ full ferr, app.GetTemplate id false = (full, some ferr) →
            out.reply = Reply.fail ferr ∧ out.cache = cache
            ∧ (∀ t, Step.compile t ∉ out.trace) ∧ (∀ i t, Step.cacheTpl i t ∉ out.trace))
        ∧ (∀ full, app.GetTemplate id false = (full, none) →
            Step.compile full ∈ out.trace
            ∧ (∀ c cerr, app.Compile full = (c, some cerr) →
                out.reply = Reply.fail (GoError.http 400 cerr.Error) ∧ out.cache = cache
                ∧ (∀ i t, Step.cacheTpl i t ∉ out.trace))
            ∧ (∀ c, app.Compile full = (c, none) →
                out.cache = mapSet cache id c ∧ mapGet out.cache id = some c
                ∧ Step.cacheTpl id c ∈ out.trace
                ∧ (∀ sub t, Step.render sub t ∈ out.trace → t = c)))) := by
  obtain ⟨hcache, rest, htrace, hrest, herr, hok⟩ := hshape
  have hnoFetch : ∀ i b, Step.getTemplate i b ∉ rest := fun i b hm => (hrest _ hm).1 i b rfl
  have hnoCompile : ∀ t, Step.compile t ∉ rest := fun t hm => (hrest _ hm).2.1 t rfl
  have hnoCache : ∀ i t, Step.cacheTpl i t ∉ rest := fun i t hm => (hrest _ hm).2.2 i t rfl
  constructor
  · intro tpl hc hu
    rw [resolveTemplate_fresh app cache id dbTpl tpl hdb hc hu] at hcache htrace hok
    rw [htrace]
    refine ⟨?_, ?_, ?_, hcache, ?_⟩
    · simp [hnoFetch]
    · intro t
      simp [hnoCompile]
    · intro i t
      simp [hnoCache]
    · intro sub t hm
      simp only [List.mem_append, List.mem_cons, List.mem_singleton] at hm
      rcases hm with (hm | hm | hm) | hm
      · cases hm
      · cases hm
      · simp at hm
      · exact hok tpl rfl sub t hm
  · intro hs
    rw [resolveTemplate_stale app cache id dbTpl hdb hs] at hcache htrace herr hok
    dsimp only at hcache herr hok
    refine ⟨?_, ?_, ?_⟩
    · rw [htrace]
      unfold refreshTemplate
      rcases app.GetTemplate id false with ⟨full, _ | ferr⟩
      · dsimp only
        rcases app.Compile full with ⟨c, _ | cerr⟩ <;> simp
      · simp
    · intro full ferr hf
      rw [refreshTemplate_fetch_failed app cache id full ferr hf] at hcache htrace herr
      obtain ⟨hreply, hnil⟩ := herr ferr rfl
      rw [htrace, hnil]
      refine ⟨hreply, hcache, ?_, ?_⟩
      · intro t
        simp
      · intro i t
        simp
    · intro full hf
      refine ⟨?_, ?_, ?_⟩
      · rw [htrace]
        unfold refreshTemplate
        rw [hf]
        dsimp only
        rcases app.Compile full with ⟨c, _ | cerr⟩ <;> simp
      · intro c cerr hc
        rw [refreshTemplate_compile_failed app cache id full c cerr hf hc] at hcache htrace herr
        obtain ⟨hreply, hnil⟩ := herr _ rfl
        rw [htrace, hnil]
        refine ⟨hreply, hcache, ?_⟩
        intro i t
        simp
      · intro c hc
        rw [refreshTemplate_compiled app cache id full c hf hc] at hcache htrace hok
        refine ⟨hcache, ?_, ?_, ?_⟩
        · rw [hcache, mapGet_mapSet]
          simp
        · rw [htrace]
          simp
        · intro sub t hm
          rw [htrace] at hm
          simp only [List.mem_append, List.mem_cons, List.mem_singleton] at hm
          rcases hm with ((hm | hm | hm) | (hm | hm | hm | hm)) | hm
          · cases hm
          · cases hm
          · simp at hm
          · cases hm
          · cases hm
          · cases hm
          · simp at hm
          · exact hok c rfl sub t hm

/-- C16: in both handlers, once validation has succeeded and the metadata row
of the template is fetched: with a cache entry whose `UpdatedAt` equals that of
the row, there is no full fetch, no compile and no cache write, the cache is
unchanged and a render uses the cached entry; with no entry or a different
`UpdatedAt`, the full template is fetched and, when that fetch succeeds,
compiled; the cache entry is replaced by the compiled template when the
compile succeeds, and on a compile failure the handler returns status 400 with
the cache as it was and without cache write. -/
theorem template_cache_touched_when_needed (app : App) (m0 : TxMessage) (cache : TplCache)
    (out : Outcome) (dbTpl : Template)
    (hrun : handleSendTxMessageSync app (.ok m0) cache = some out
      ∨ handleSendTxMessage app (.ok m0) cache = some out)
    (hval : (validateTxMessageSync m0 app).2 = none)
    (hdb : app.GetTemplate m0.TemplateID true = (dbTpl, none)) :
    (∀ tpl, mapGet cache m0.TemplateID = some tpl → tpl.UpdatedAt = dbTpl.UpdatedAt →
        Step.getTemplate m0.TemplateID false ∉ out.trace
        ∧ (∀ t, Step.compile t ∉ out.trace)
        ∧ (∀ i t, Step.cacheTpl i t ∉ out.trace)
        ∧ out.cache = cache
        ∧ (∀ sub t, Step.render sub t ∈ out.trace → t = tpl))
    ∧ ((mapGet cache m0.TemplateID = none
          ∨ ∃ tpl, mapGet cache m0.TemplateID = some tpl ∧ tpl.UpdatedAt ≠ dbTpl.UpdatedAt) →
        Step.getTemplate m0.TemplateID false ∈ out.trace
        ∧ (∀ full ferr, app.GetTemplate m0.TemplateID false = (full, some ferr) →
            out.reply = Reply.fail ferr ∧ out.cache = cache
            ∧ (∀ t, Step.compile t ∉ out.trace) ∧ (∀ i t, Step.cacheTpl i t ∉ out.trace))
        ∧ (∀ full, app.GetTemplate m0.TemplateID false = (full, none) →
            Step.compile full ∈ out.trace
            ∧ (∀ c cerr, app.Compile full = (c, some cerr) →
                out.reply = Reply.fail (GoError.http 400 cerr.Error) ∧ out.cache = cache
                ∧ (∀ i t, Step.cacheTpl i t ∉ out.trace))
            ∧ (∀ c, app.Compile full = (c, none) →
                out.cache = mapSet cache m0.TemplateID c ∧ mapGet out.cache m0.TemplateID = some c
                ∧ Step.cacheTpl m0.TemplateID c ∈ out.trace
                ∧ (∀ sub t, Step.render sub t ∈ out.trace → t = c)))) := by
  have hsame : validateTxMessage m0 app = validateTxMessageSync m0 app := by
    unfold validateTxMessage validateTxMessageSync
    rfl
  have hid : (validateTxMessageSync m0 app).1.TemplateID = m0.TemplateID := by
    rw [validateTxMessageSync_fst m0 app hval]
  have hv : validateTxMessageSync m0 app = ((validateTxMessageSync m0 app).1, none) := by
    rw [← hval]
  apply resolution_facts app cache m0.TemplateID out dbTpl _ hdb
  rw [← hid]
  rcases hrun with h | h
  · exact sync_shape app m0 _ cache out hv h
  · exact async_shape app m0 _ cache out (by rw [hsame]; exact hv) h

/-- C16 at scenario A of the specification: template 3 is cached and fresh,
so the handler neither compiles nor writes the cache, and leaves it as it was. -/
theorem template_cache_touched_when_needed_witness :
    handleSendTxMessageSync sampleApp (.ok plainRequest) [(3, sampleTemplate)]
        = some freshOutcome
    ∧ (validateTxMessageSync plainRequest sampleApp).2 = none
    ∧ (∀ t, Step.compile t ∉ freshOutcome.trace)
    ∧ (∀ i t, Step.cacheTpl i t ∉ freshOutcome.trace)
    ∧ freshOutcome.cache = [(3, sampleTemplate)] :=
  ⟨by decide, by decide,
   ((template_cache_touched_when_needed sampleApp plainRequest [(3, sampleTemplate)]
      freshOutcome
      { ID := 3, UpdatedAt := { Time := 100, Valid := true }, Subject := "Welcome", Body := "" }
      (Or.inl (by decide)) (by decide) (by decide)).1 sampleTemplate (by decide)
      (by decide)).2.1,
   ((template_cache_touched_when_needed sampleApp plainRequest [(3, sampleTemplate)]
      freshOutcome
      { ID := 3, UpdatedAt := { Time := 100, Valid := true }, Subject := "Welcome", Body := "" }
      (Or.inl (by decide)) (by decide) (by decide)).1 sampleTemplate (by decide)
      (by decide)).2.2.1,
   ((template_cache_touched_when_needed sampleApp plainRequest [(3, sampleTemplate)]
      freshOutcome
      { ID := 3, UpdatedAt := { Time := 100, Valid := true }, Subject := "Welcome", Body := "" }
      (Or.inl (by decide)) (by decide) (by decide)).1 sampleTemplate (by decide)
      (by decide)).2.2.2.1⟩

/-! ## The header multimap of the message -/

theorem mapGet_add (h : MIMEHeader) (k v n : String) :
    mapGet (h.Add k v) n
      = if CanonicalMIMEHeaderKey k = n then some ((mapGet h n).getD [] ++ [v])
        else mapGet h n := by
  unfold MIMEHeader.Add
  rw [mapGet_mapSet]
  by_cases hk : CanonicalMIMEHeaderKey k = n
  · simp [hk]
  · simp [hk]

theorem values_addHeaderSet (h : MIMEHeader) (l : List (String × String)) (n : String) :
    (mapGet (addHeaderSet h l) n).getD []
      = (mapGet h n).getD []
        ++ (l.filter (fun p => decide (CanonicalMIMEHeaderKey p.1 = n))).map Prod.snd := by
  induction l generalizing h with
  | nil => simp [addHeaderSet]
  | cons p rest ih =>
    obtain ⟨k, v⟩ := p
    rw [addHeaderSet, ih, mapGet_add]
    by_cases hk : CanonicalMIMEHeaderKey k = n
    · simp [hk, List.filter_cons]
    · simp [hk, List.filter_cons]

theorem addHeaderSets_flatten (h : MIMEHeader) (sets : List (List (String × String))) :
    addHeaderSets h sets = addHeaderSet h sets.flatten := by
  induction sets generalizing h with
  | nil => simp [addHeaderSets, addHeaderSet]
  | cons set rest ih =>
    have happ : ∀ (l1 l2 : List (String × String)) (h : MIMEHeader),
        addHeaderSet h (l1 ++ l2) = addHeaderSet (addHeaderSet h l1) l2 := by
      intro l1
      induction l1 with
      | nil => intro l2 h; simp [addHeaderSet]
      | cons p l1 ih1 =>
        intro l2 h
        obtain ⟨k, v⟩ := p
        simp [addHeaderSet, ih1]
    rw [addHeaderSets, ih, List.flatten_cons, happ]

theorem total_mapSet (h : MIMEHeader) (k : String) (vs : List String) :
    ((mapSet h k vs).map (fun kv => kv.2.length)).sum + ((mapGet h k).getD []).length
      = (h.map (fun kv => kv.2.length)).sum + vs.length := by
  induction h with
  | nil => simp [mapSet, mapGet]
  | cons kv rest ih =>
    obtain ⟨k1, v1⟩ := kv
    by_cases hk : k1 = k
    · simp [mapSet, mapGet, hk]
      omega
    · simp [mapSet, mapGet, hk]
      omega

theorem total_addHeaderSet (h : MIMEHeader) (l : List (String × String)) :
    ((addHeaderSet h l).map (fun kv => kv.2.length)).sum
      = (h.map (fun kv => kv.2.length)).sum + l.length := by
  induction l generalizing h with
  | nil => simp [addHeaderSet]
  | cons p rest ih =>
    obtain ⟨k, v⟩ := p
    rw [addHeaderSet, ih]
    have := total_mapSet h (CanonicalMIMEHeaderKey k)
      ((mapGet h (CanonicalMIMEHeaderKey k)).getD [] ++ [v])
    unfold MIMEHeader.Add
    simp only [List.length_append, List.length_cons, List.length_nil] at this ⊢
    omega

theorem mem_mapSet {κ ν : Type} [DecidableEq κ] (m : List (κ × ν)) (k : κ) (v : ν)
    (kv : κ × ν) (h : kv ∈ mapSet m k v) : kv = (k, v) ∨ kv ∈ m := by
  induction m with
  | nil =>
    simp only [mapSet, List.mem_singleton] at h
    exact Or.inl h
  | cons p rest ih =>
    obtain ⟨k1, v1⟩ := p
    by_cases hk : k1 = k
    · simp only [mapSet, hk, if_true, List.mem_cons] at h
      rcases h with h | h
      · exact Or.inl h
      · exact Or.inr (List.mem_cons_of_mem _ h)
    · simp only [mapSet, hk, if_false, List.mem_cons] at h
      rcases h with h | h
      · exact Or.inr (by simp [h])
      · rcases ih h with h1 | h1
        · exact Or.inl h1
        · exact Or.inr (List.mem_cons_of_mem _ h1)

theorem keys_mapSet {κ ν : Type} [DecidableEq κ] (m : List (κ × ν)) (k : κ) (v : ν) :
    (mapSet m k v).map Prod.fst
      = if k ∈ m.map Prod.fst then m.map Prod.fst else m.map Prod.fst ++ [k] := by
  induction m with
  | nil => simp [mapSet]
  | cons p rest ih =>
    obtain ⟨k1, v1⟩ := p
    by_cases hk : k1 = k
    · simp [mapSet, hk]
    · have hk2 : ¬ k = k1 := fun e => hk e.symm
      by_cases hmem : k ∈ rest.map Prod.fst
      · simp only [mapSet, hk, if_false, List.map_cons, ih, hmem, if_true, List.mem_cons,
          or_true]
      · simp only [mapSet, hk, if_false, List.map_cons, ih, hmem, List.mem_cons, hk2,
          or_self, List.cons_append]

theorem nodup_keys_mapSet {κ ν : Type} [DecidableEq κ] (m : List (κ × ν)) (k : κ) (v : ν)
    (h : (m.map Prod.fst).Nodup) : ((mapSet m k v).map Prod.fst).Nodup := by
  rw [keys_mapSet]
  by_cases hmem : k ∈ m.map Prod.fst
  · simpa [hmem] using h
  · rw [if_neg hmem]
    refine List.nodup_append.mpr ⟨h, by simp, ?_⟩
    intro a ha hb
    simp only [List.mem_singleton] at hb
    subst hb
    exact hmem ha

theorem addHeaderSet_invariant (h : MIMEHeader) (l : List (String × String))
    (h1 : (h.map Prod.fst).Nodup) (h2 : ∀ kv ∈ h, kv.2 ≠ []) :
    ((addHeaderSet h l).map Prod.fst).Nodup ∧ ∀ kv ∈ addHeaderSet h l, kv.2 ≠ [] := by
  induction l generalizing h with
  | nil => exact ⟨h1, h2⟩
  | cons p rest ih =>
    obtain ⟨k, v⟩ := p
    rw [addHeaderSet]
    apply ih
    · exact nodup_keys_mapSet _ _ _ h1
    · intro kv hkv
      rcases mem_mapSet _ _ _ _ hkv with hx | hx
      · rw [hx]
        simp
      · exact h2 kv hx

theorem resolveTemplate_no_pushMessage (app : App) (cache : TplCache) (id : Int)
    (msg : ManagerMessage) (res : Option GoError) :
    Step.pushMessage msg res ∉ (resolveTemplate app cache id).2.2 := by
  unfold resolveTemplate refreshTemplate
  repeat (first | split | simp)

theorem sync_push_headers (app : App) (m0 : TxMessage) (cache : TplCache)
    (out : Outcome) (h : handleSendTxMessageSync app (.ok m0) cache = some out)
    (msgr : String) (msg : Message) (res : Option GoError)
    (hstep : Step.push msgr msg res ∈ out.trace) :
    ∃ m sub tpl m1, validateTxMessageSync m0 app = (m, none)
      ∧ app.Render m sub tpl = (m1, none) ∧ msg.Headers = buildHeaders m1 := by
  unfold handleSendTxMessageSync at h
  dsimp only at h
  rcases hv : validateTxMessageSync m0 app with ⟨m, _ | verr⟩
  · rw [hv] at h
    dsimp only at h
    have hnp := resolveTemplate_no_push app cache m.TemplateID msgr msg res
    rcases ht : resolveTemplate app cache m.TemplateID with ⟨_ | tpl, cache1, tr⟩
    · rw [ht] at h hnp
      simp only [Option.some.injEq] at h
      subst h
      exact absurd hstep hnp
    · rw [ht] at h hnp
      dsimp only at h hnp
      cases hs : resolveSubscriber app m with
      | error serr =>
        rw [hs] at h
        simp only [Option.some.injEq] at h
        subst h
        simp [hnp] at hstep
      | ok sub =>
        rw [hs] at h
        dsimp only at h
        rcases hr : app.Render m sub tpl with ⟨m1, _ | rerr⟩
        · rw [hr] at h
          dsimp only at h
          cases hm : app.messengers m1.Messenger with
          | none => rw [hm] at h; exact absurd h (by simp)
          | some push =>
            rw [hm] at h
            dsimp only at h
            split at h
            · exact absurd h (by simp)
            · simp only [Option.some.injEq] at h
              subst h
              simp [hnp] at hstep
              obtain ⟨-, h2, -⟩ := hstep
              subst h2
              exact ⟨m, sub, tpl, m1, rfl, hr, rfl⟩
            · simp only [Option.some.injEq] at h
              subst h
              simp [hnp] at hstep
              obtain ⟨-, h2, -⟩ := hstep
              subst h2
              exact ⟨m, sub, tpl, m1, rfl, hr, rfl⟩
        · rw [hr] at h
          simp only [Option.some.injEq] at h
          subst h
          simp [hnp] at hstep
  · rw [hv] at h
    simp only [Option.some.injEq] at h
    subst h
    simp at hstep

theorem async_push_headers (app : App) (m0 : TxMessage) (cache : TplCache)
    (out : Outcome) (h : handleSendTxMessage app (.ok m0) cache = some out)
    (msg : ManagerMessage) (res : Option GoError)
    (hstep : Step.pushMessage msg res ∈ out.trace) :
    ∃ m sub tpl m1, validateTxMessage m0 app = (m, none)
      ∧ app.Render m sub tpl = (m1, none) ∧ msg.Headers = buildHeaders m1 := by
  unfold handleSendTxMessage at h
  dsimp only at h
  rcases hv : validateTxMessage m0 app with ⟨m, _ | verr⟩
  · rw [hv] at h
    dsimp only at h
    have hnp := resolveTemplate_no_pushMessage app cache m.TemplateID msg res
    rcases ht : resolveTemplate app cache m.TemplateID with ⟨_ | tpl, cache1, tr⟩
    · rw [ht] at h hnp
      simp only [Option.some.injEq] at h
      subst h
      exact absurd hstep hnp
    · rw [ht] at h hnp
      dsimp only at h hnp
      cases hs : resolveSubscriber app m with
      | error serr =>
        rw [hs] at h
        simp only [Option.some.injEq] at h
        subst h
        simp [hnp] at hstep
      | ok sub =>
        rw [hs] at h
        dsimp only at h
        rcases hr : app.Render m sub tpl with ⟨m1, _ | rerr⟩
        · rw [hr] at h
          dsimp only at h
          split at h
          · split_ifs at h
            · simp only [Option.some.injEq] at h
              subst h
              simp [hnp] at hstep
              obtain ⟨h2, -⟩ := hstep
              subst h2
              exact ⟨m, sub, tpl, m1, rfl, hr, rfl⟩
            · simp only [Option.some.injEq] at h
              subst h
              simp [hnp] at hstep
              obtain ⟨h2, -⟩ := hstep
              subst h2
              exact ⟨m, sub, tpl, m1, rfl, hr, rfl⟩
          · simp only [Option.some.injEq] at h
            subst h
            simp [hnp] at hstep
            obtain ⟨h2, -⟩ := hstep
            subst h2
            exact ⟨m, sub, tpl, m1, rfl, hr, rfl⟩
        · rw [hr] at h
          simp only [Option.some.injEq] at h
          subst h
          simp [hnp] at hstep
  · rw [hv] at h
    simp only [Option.some.injEq] at h
    subst h
    simp at hstep

theorem buildHeaders_eq (m : TxMessage) : buildHeaders m = addHeaderSet [] m.Headers.flatten := by
  unfold buildHeaders
  by_cases h : m.Headers.length ≠ 0
  · rw [if_pos h, addHeaderSets_flatten]
  · rw [if_neg h]
    have h0 : m.Headers = [] := by
      apply List.length_eq_zero.mp
      simpa using h
    rw [h0]
    rfl

theorem buildHeaders_congr (m m1 : TxMessage) (h : m1.Headers = m.Headers) :
    buildHeaders m1 = buildHeaders m := by
  unfold buildHeaders
  rw [h]

/-- C18: the header map that the handlers build holds, under each canonical
header name, exactly the values of the request pairs whose name canonicalises
to it, in the order of the request; the stored values are as many as the
pairs, no name is stored twice, and a request without header entries gives no
map. In both handlers this is the header map of the message handed on, as long
as rendering leaves the request headers alone. -/
theorem message_headers_additive (m : TxMessage) :
    (∀ n, (mapGet (buildHeaders m) n).getD []
        = (m.Headers.flatten.filter
            (fun p => decide (CanonicalMIMEHeaderKey p.1 = n))).map Prod.snd)
    ∧ ((buildHeaders m).map (fun kv => kv.2.length)).sum = m.Headers.flatten.length
    ∧ ((buildHeaders m).map Prod.fst).Nodup
    ∧ (m.Headers = [] → buildHeaders m = [])
    ∧ (∀ (app : App) (cache : TplCache) (out : Outcome),
        (∀ x sub tpl, (app.Render x sub tpl).1.Headers = x.Headers) →
        (handleSendTxMessageSync app (.ok m) cache = some out →
          ∀ msgr msg res, Step.push msgr msg res ∈ out.trace →
            msg.Headers = buildHeaders m)
        ∧ (handleSendTxMessage app (.ok m) cache = some out →
          ∀ msg res, Step.pushMessage msg res ∈ out.trace →
            msg.Headers = buildHeaders m)) := by
  refine ⟨?_, ?_, ?_, ?_, ?_⟩
  · intro n
    rw [buildHeaders_eq, values_addHeaderSet]
    simp [mapGet]
  · rw [buildHeaders_eq, total_addHeaderSet]
    simp
  · rw [buildHeaders_eq]
    exact (addHeaderSet_invariant [] _ (by simp) (by simp)).1
  · intro h
    simp [buildHeaders, h]
  · intro app cache out hrender
    constructor
    · intro hrun msgr msg res hstep
      obtain ⟨m1, sub, tpl, m2, hv, hr, hh⟩ :=
        sync_push_headers app m cache out hrun msgr msg res hstep
      rw [hh]
      apply buildHeaders_congr
      have h1 : m2.Headers = m1.Headers := by
        have := hrender m1 sub tpl
        rw [hr] at this
        exact this
      have h2 : m1.Headers = m.Headers := by
        have hval : (validateTxMessageSync m app).2 = none := by rw [hv]
        have := validateTxMessageSync_fst m app hval
        rw [hv] at this
        dsimp only at this
        rw [this]
      rw [h1, h2]
    · intro hrun msg res hstep
      obtain ⟨m1, sub, tpl, m2, hv, hr, hh⟩ :=
        async_push_headers app m cache out hrun msg res hstep
      rw [hh]
      apply buildHeaders_congr
      have h1 : m2.Headers = m1.Headers := by
        have := hrender m1 sub tpl
        rw [hr] at this
        exact this
      have h2 : m1.Headers = m.Headers := by
        have hval : (validateTxMessage m app).2 = none := by rw [hv]
        have := validateTxMessage_fst m app hval
        rw [hv] at this
        dsimp only at this
        rw [this]
      rw [h1, h2]

/-- C18 at a concrete input: `x-tag` and `X-Tag` end under the one name
`X-Tag` with both values. -/
theorem message_headers_additive_witness :
    buildHeaders twoCaseHeadersRequest = [("X-Tag", ["1", "2"]), ("X-Other", ["o"])]
    ∧ (mapGet (buildHeaders twoCaseHeadersRequest) "X-Tag").getD [] = ["1", "2"]
    ∧ ((buildHeaders twoCaseHeadersRequest).map (fun kv => kv.2.length)).sum = 3 :=
  ⟨by decide,
   (message_headers_additive twoCaseHeadersRequest).1 "X-Tag",
   (message_headers_additive twoCaseHeadersRequest).2.1⟩

/-! ## The read of the first header value -/

theorem attachMessageHeaders_isSome_iff (h : MIMEHeader) (l : MIMEHeader) :
    (∃ h1, attachMessageHeaders h l = some h1) ↔ ∀ kv ∈ l, kv.2 ≠ [] := by
  constructor
  · intro hex
    induction l generalizing h with
    | nil => simp
    | cons kv rest ih =>
      obtain ⟨k, vs⟩ := kv
      cases vs with
      | nil =>
        obtain ⟨h1, hh⟩ := hex
        simp [attachMessageHeaders] at hh
      | cons v0 vrest =>
        simp only [attachMessageHeaders] at hex
        intro kv hkv
        rcases List.mem_cons.mp hkv with hx | hx
        · rw [hx]
          simp
        · exact ih _ hex kv hx
  · exact attachMessageHeaders_isSome h l

/-- C19: `Push` reads index 0 of the value list of every header entry of the
message, so the read is in range exactly when no entry has an empty value
list. Every header map built by the handlers has non-empty value lists only,
hence for the message that either handler hands on the email is assembled
without a panic; for the hand-built `emptyValueListMessage`, in which `X-Tag`
has no value, `Push` panics. -/
theorem pipeline_headers_in_range :
    (∀ (srv : Server) (msg : Message),
        (∃ em, assembleEmail srv msg = some em) ↔ ∀ kv ∈ msg.Headers, kv.2 ≠ [])
    ∧ (∀ m : TxMessage, ∀ kv ∈ buildHeaders m, kv.2 ≠ [])
    ∧ (∀ (app : App) (m0 : TxMessage) (cache : TplCache) (out : Outcome),
        (handleSendTxMessageSync app (.ok m0) cache = some out →
          ∀ msgr msg res, Step.push msgr msg res ∈ out.trace →
            (∀ kv ∈ msg.Headers, kv.2 ≠ []) ∧ ∀ srv, ∃ em, assembleEmail srv msg = some em)
        ∧ (handleSendTxMessage app (.ok m0) cache = some out →
          ∀ msg res, Step.pushMessage msg res ∈ out.trace →
            (∀ kv ∈ msg.Headers, kv.2 ≠ [])
            ∧ ∀ srv, ∃ em, assembleEmail srv msg.toMessage = some em))
    ∧ Emailer.Push parseBareAddress (fun _ => 0) (fun _ _ => none)
        { servers := [serverB] } emptyValueListMessage = none := by
  have hbuild : ∀ m : TxMessage, ∀ kv ∈ buildHeaders m, kv.2 ≠ [] := by
    intro m
    rw [buildHeaders_eq]
    exact (addHeaderSet_invariant [] _ (by simp) (by simp)).2
  have hasm : ∀ (srv : Server) (msg : Message),
      (∃ em, assembleEmail srv msg = some em) ↔ ∀ kv ∈ msg.Headers, kv.2 ≠ [] := by
    intro srv msg
    constructor
    · rintro ⟨em, hem⟩
      obtain ⟨headers, hattach, -⟩ := assembleEmail_fields srv msg em hem
      exact (attachMessageHeaders_isSome_iff _ _).mp ⟨headers, hattach⟩
    · exact assembleEmail_isSome srv msg
  refine ⟨hasm, hbuild, ?_, by decide⟩
  intro app m0 cache out
  constructor
  · intro hrun msgr msg res hstep
    obtain ⟨m1, sub, tpl, m2, -, -, hh⟩ :=
      sync_push_headers app m0 cache out hrun msgr msg res hstep
    have hne : ∀ kv ∈ msg.Headers, kv.2 ≠ [] := by
      rw [hh]
      exact hbuild m2
    exact ⟨hne, fun srv => (hasm srv msg).mpr hne⟩
  · intro hrun msg res hstep
    obtain ⟨m1, sub, tpl, m2, -, -, hh⟩ :=
      async_push_headers app m0 cache out hrun msg res hstep
    have hne : ∀ kv ∈ msg.Headers, kv.2 ≠ [] := by
      rw [hh]
      exact hbuild m2
    exact ⟨hne, fun srv => (hasm srv msg.toMessage).mpr hne⟩

end Listmonk
